import Mathlib

/-!
Verification of the DAP (Debug Adapter Protocol) client in debug.py:
the framer (Content-Length framing over a byte stream), the sequencer
(monotone seq numbers), the correlator (send_request response matching),
the event waiter, set_breakpoints request construction, and the
driver teardown in start_debug_session.

Python strings are modelled as List Char, byte strings as List Nat
(each entry a byte value < 256).
-/

namespace DapDemo

/-- JSON values as produced by json.loads and consumed by json.dumps.
Objects keep their key-value pairs in insertion order, as Python dicts do;
the objects built by this client never repeat a key. -/
inductive Json where
  | null
  | bool (b : Bool)
  | num (n : Int)
  | str (s : String)
  | arr (xs : List Json)
  | obj (kvs : List (String × Json))

/-- Python dict.get on a parsed JSON object (None when the key is absent;
for a duplicate key a Python dict keeps the last value). On a non-object
this model returns none; the client only calls .get on objects. -/
def Json.get : Json → String → Option Json
  | .obj kvs, k => (kvs.reverse.find? (fun kv => kv.1 == k)).map (fun kv => kv.2)
  | _, _ => none

/-- Whether the parsed JSON value is a Python dict. -/
def Json.isObj : Json → Bool
  | .obj _ => true
  | _ => false

/-- Python truthiness of a JSON value (None, False, 0, empty string, empty
list and empty dict are falsy). -/
def Json.truthy : Json → Bool
  | .null => false
  | .bool b => b
  | .num n => n != 0
  | .str s => s != ""
  | .arr xs => !xs.isEmpty
  | .obj kvs => !kvs.isEmpty

/-- Decimal digits of a natural number, most significant first,
accumulated onto acc. -/
def natToCharsAux (n : Nat) (acc : List Char) : List Char :=
  let d := Char.ofNat (48 + n % 10)
  if h : n < 10 then d :: acc
  else natToCharsAux (n / 10) (d :: acc)
termination_by n
decreasing_by exact Nat.div_lt_self (by omega) (by omega)

/-- Python str(int): decimal representation, with a leading minus sign
for negative values. -/
def intToChars (i : Int) : List Char :=
  if i < 0 then '-' :: natToCharsAux i.natAbs []
  else natToCharsAux i.toNat []

/-- Lowercase hexadecimal digit. -/
def hexDigit (n : Nat) : Char :=
  if n < 10 then Char.ofNat (48 + n) else Char.ofNat (87 + n)

/-- Four lowercase hex digits, as in Python json \uXXXX escapes. -/
def hex4 (n : Nat) : List Char :=
  [hexDigit (n / 4096 % 16), hexDigit (n / 256 % 16),
   hexDigit (n / 16 % 16), hexDigit (n % 16)]

/-- Escaping of one character by Python json.dumps with its default
ensure_ascii=True: quote and backslash get a backslash escape, the five
control characters with short escapes use them, every other character
outside the printable ASCII range 0x20..0x7e becomes a \uXXXX escape
(a surrogate pair for astral code points). -/
def escapeChar (c : Char) : List Char :=
  if c = '"' then ['\\', '"']
  else if c = '\\' then ['\\', '\\']
  else if c = '\n' then ['\\', 'n']
  else if c = '\r' then ['\\', 'r']
  else if c = '\t' then ['\\', 't']
  else if c.toNat = 8 then ['\\', 'b']
  else if c.toNat = 12 then ['\\', 'f']
  else if 32 ≤ c.toNat ∧ c.toNat ≤ 126 then [c]
  else if c.toNat < 65536 then '\\' :: 'u' :: hex4 c.toNat
  else
    let v := c.toNat - 65536
    ('\\' :: 'u' :: hex4 (55296 + v / 1024)) ++ '\\' :: 'u' :: hex4 (56320 + v % 1024)

/-- Escape every character of a string body. -/
def escapeChars (cs : List Char) : List Char :=
  (cs.map escapeChar).flatten

mutual

/-- Python json.dumps with default options: item separator comma-space,
key separator colon-space, ensure_ascii escaping of strings. -/
def pyDumps : Json → List Char
  | .null => "null".data
  | .bool b => if b then "true".data else "false".data
  | .num n => intToChars n
  | .str s => '"' :: escapeChars s.data ++ ['"']
  | .arr xs => '[' :: dumpList xs ++ [']']
  | .obj kvs => '{' :: dumpObj kvs ++ ['}']

/-- Serialize array elements joined by comma-space. -/
def dumpList : List Json → List Char
  | [] => []
  | [x] => pyDumps x
  | x :: y :: rest => pyDumps x ++ ',' :: ' ' :: dumpList (y :: rest)

/-- Serialize object members joined by comma-space, each key quoted and
escaped, followed by colon-space and the value. -/
def dumpObj : List (String × Json) → List Char
  | [] => []
  | [(k, v)] => '"' :: escapeChars k.data ++ '"' :: ':' :: ' ' :: pyDumps v
  | (k, v) :: kv :: rest =>
      ('"' :: escapeChars k.data ++ '"' :: ':' :: ' ' :: pyDumps v)
        ++ ',' :: ' ' :: dumpObj (kv :: rest)

end

/-- UTF-8 encoding of one character (1 to 4 bytes). -/
def utf8EncodeChar (c : Char) : List Nat :=
  let v := c.toNat
  if v < 128 then [v]
  else if v < 2048 then [192 + v / 64, 128 + v % 64]
  else if v < 65536 then [224 + v / 4096, 128 + v / 64 % 64, 128 + v % 64]
  else [240 + v / 262144, 128 + v / 4096 % 64, 128 + v / 64 % 64, 128 + v % 64]

/-- Python str.encode("utf-8"): the UTF-8 bytes of a string. -/
def utf8Encode (cs : List Char) : List Nat :=
  (cs.map utf8EncodeChar).flatten

/-- Whether a byte is a UTF-8 continuation byte. -/
def isCont (b : Nat) : Bool := 128 ≤ b && b < 192

/-- Decode of the tail of a 2-byte UTF-8 sequence: continuation check and
overlong rejection. -/
def utf8Step2 (b b1 : Nat) (rest1 : List Nat) : Option (Char × List Nat) :=
  if isCont b1 then
    let v := (b - 192) * 64 + (b1 - 128)
    if 128 ≤ v then some (Char.ofNat v, rest1) else none
  else none

/-- Decode of the tail of a 3-byte UTF-8 sequence: continuation checks,
overlong rejection and surrogate rejection. -/
def utf8Step3 (b b1 b2 : Nat) (rest2 : List Nat) : Option (Char × List Nat) :=
  if isCont b1 && isCont b2 then
    let v := (b - 224) * 4096 + (b1 - 128) * 64 + (b2 - 128)
    if 2048 ≤ v ∧ ¬(55296 ≤ v ∧ v < 57344) then some (Char.ofNat v, rest2)
    else none
  else none

/-- Decode of the tail of a 4-byte UTF-8 sequence: continuation checks,
overlong rejection and the U+10FFFF upper bound. -/
def utf8Step4 (b b1 b2 b3 : Nat) (rest3 : List Nat) : Option (Char × List Nat) :=
  if isCont b1 && isCont b2 && isCont b3 then
    let v := (b - 240) * 262144 + (b1 - 128) * 4096 + (b2 - 128) * 64 + (b3 - 128)
    if 65536 ≤ v ∧ v ≤ 1114111 then some (Char.ofNat v, rest3) else none
  else none

/-- Decode one character from a lead byte and the bytes after it,
yielding the character and the unconsumed remainder; none models a
UnicodeDecodeError (stray or missing continuation byte, overlong or
out-of-range encoding). -/
def utf8Step (b : Nat) (rest : List Nat) : Option (Char × List Nat) :=
  if b < 128 then some (Char.ofNat b, rest)
  else if b < 192 then none
  else if b < 224 then
    match rest with
    | b1 :: rest1 => utf8Step2 b b1 rest1
    | [] => none
  else if b < 240 then
    match rest with
    | b1 :: b2 :: rest2 => utf8Step3 b b1 b2 rest2
    | _ => none
  else if b < 245 then
    match rest with
    | b1 :: b2 :: b3 :: rest3 => utf8Step4 b b1 b2 b3 rest3
    | _ => none
  else none

/-- Decoding loop: one character per step. Every step consumes at least
the lead byte, so the fuel utf8Decode passes never runs out. -/
def utf8DecodeAux : Nat → List Nat → Option (List Char)
  | _, [] => some []
  | 0, _ :: _ => none
  | fuel + 1, b :: rest =>
    match utf8Step b rest with
    | none => none
    | some (c, rest2) => (utf8DecodeAux fuel rest2).map (fun cs => c :: cs)

/-- Python bytes.decode("utf-8"): strict UTF-8 decoding, rejecting stray
or missing continuation bytes, overlong encodings, surrogates and values
beyond U+10FFFF (none means UnicodeDecodeError). -/
def utf8Decode (l : List Nat) : Option (List Char) := utf8DecodeAux l.length l

/-- Python string whitespace stripped by int(): ASCII space and the
control whitespace characters. -/
def isPyWS (c : Char) : Bool :=
  c = ' ' || c.toNat = 9 || c.toNat = 10 || c.toNat = 13 || c.toNat = 11 || c.toNat = 12

/-- Value of a nonempty all-digit string (none otherwise). -/
def digitsVal (ds : List Char) : Option Nat :=
  if ds.isEmpty then none
  else if ds.all Char.isDigit then
    some (ds.foldl (fun n c => n * 10 + (c.toNat - 48)) 0)
  else none

/-- Python int(str): strips surrounding whitespace, accepts an optional
sign followed by decimal digits; none models the ValueError raised on any
other input. (Underscore digit grouping is not modelled; no input of this
client contains it.) -/
def pyInt (cs : List Char) : Option Int :=
  let t := ((cs.dropWhile isPyWS).reverse.dropWhile isPyWS).reverse
  match t with
  | '-' :: ds => (digitsVal ds).map (fun n => -(n : Int))
  | '+' :: ds => (digitsVal ds).map (fun n => (n : Int))
  | ds => (digitsVal ds).map (fun n => (n : Int))

/-- Extend the first piece of a split with one leading character. -/
def consHead (c : Char) : List (List Char) → List (List Char)
  | [] => [[c]]
  | p :: ps => (c :: p) :: ps

/-- Splitting loop for pySplit. Each step consumes at least one character
of s (sep is nonempty), so fuel = s.length + 1 never runs out. -/
def pySplitAux : Nat → List Char → List Char → List (List Char)
  | 0, _, s => [s]
  | fuel + 1, sep, s =>
    if sep.isPrefixOf s then [] :: pySplitAux fuel sep (s.drop sep.length)
    else
      match s with
      | [] => [[]]
      | c :: rest => consHead c (pySplitAux fuel sep rest)

/-- Python str.split(sep) for a nonempty separator: the pieces of s
between non-overlapping left-to-right occurrences of sep. An empty
separator raises in Python and is never used by this client. -/
def pySplit (sep s : List Char) : List (List Char) :=
  if sep.length = 0 then [s] else pySplitAux (s.length + 1) sep s

/-- Whether pat occurs as a contiguous run inside l (the Python
`pat in bytes` test). -/
def bytesContains (pat l : List Nat) : Bool :=
  l.tails.any (fun t => pat.isPrefixOf t)

/-- JSON insignificant whitespace: space, tab, newline, carriage return. -/
def skipWS (l : List Char) : List Char :=
  l.dropWhile (fun c => c = ' ' || c.toNat = 9 || c.toNat = 10 || c.toNat = 13)

/-- Value of one hexadecimal digit. -/
def hexVal (c : Char) : Option Nat :=
  if c.isDigit then some (c.toNat - 48)
  else if 'a' ≤ c ∧ c ≤ 'f' then some (c.toNat - 87)
  else if 'A' ≤ c ∧ c ≤ 'F' then some (c.toNat - 55)
  else none

/-- Single-character JSON string escapes. -/
def escDecode (e : Char) : Option Char :=
  if e = '"' then some '"'
  else if e = '\\' then some '\\'
  else if e = '/' then some '/'
  else if e = 'b' then some (Char.ofNat 8)
  else if e = 'f' then some (Char.ofNat 12)
  else if e = 'n' then some '\n'
  else if e = 'r' then some '\r'
  else if e = 't' then some '\t'
  else none

/-- Body of a JSON string literal after its opening quote: the decoded
characters and the remainder after the closing quote. Surrogate pairs in
consecutive \uXXXX escapes are combined; a lone surrogate escape is
rejected (Python would keep it as a surrogate code unit, which has no
scalar-value counterpart and never occurs in this protocol). -/
def parseStringAux : List Char → Option (List Char × List Char)
  | [] => none
  | '"' :: rest => some ([], rest)
  | '\\' :: 'u' :: h1 :: h2 :: h3 :: h4 :: rest =>
    (match hexVal h1, hexVal h2, hexVal h3, hexVal h4 with
     | some v1, some v2, some v3, some v4 =>
       let v := v1 * 4096 + v2 * 256 + v3 * 16 + v4
       if 55296 ≤ v ∧ v < 56320 then
         match rest with
         | '\\' :: 'u' :: g1 :: g2 :: g3 :: g4 :: rest2 =>
           (match hexVal g1, hexVal g2, hexVal g3, hexVal g4 with
            | some w1, some w2, some w3, some w4 =>
              let w := w1 * 4096 + w2 * 256 + w3 * 16 + w4
              if 56320 ≤ w ∧ w < 57344 then
                (parseStringAux rest2).map
                  (fun p => (Char.ofNat (65536 + (v - 55296) * 1024 + (w - 56320)) :: p.1, p.2))
              else none
            | _, _, _, _ => none)
         | _ => none
       else if 56320 ≤ v ∧ v < 57344 then none
       else (parseStringAux rest).map (fun p => (Char.ofNat v :: p.1, p.2))
     | _, _, _, _ => none)
  | '\\' :: e :: rest =>
    (match escDecode e with
     | some c => (parseStringAux rest).map (fun p => (c :: p.1, p.2))
     | none => none)
  | c :: rest =>
    if c.toNat < 32 then none
    else (parseStringAux rest).map (fun p => (c :: p.1, p.2))

/-- Consume a run of decimal digits, accumulating their value. -/
def parseDigits (acc : Nat) : List Char → Nat × List Char
  | [] => (acc, [])
  | c :: rest =>
    if c.isDigit then parseDigits (acc * 10 + (c.toNat - 48)) rest
    else (acc, c :: rest)

/-- Reject a fractional or exponent part after an integer literal. This
model restricts JSON numbers to integers: every message of this protocol
carries only integer numerics. -/
def rejectFloat (n : Nat) : List Char → Option (Nat × List Char)
  | [] => some (n, [])
  | c :: rest =>
    if c = '.' || c = 'e' || c = 'E' then none else some (n, c :: rest)

/-- Unsigned integer part of a JSON number: a lone 0, or a nonzero digit
followed by more digits. -/
def parseIntPart : List Char → Option (Nat × List Char)
  | [] => none
  | '0' :: rest => rejectFloat 0 rest
  | c :: rest =>
    if c.isDigit then
      let p := parseDigits (c.toNat - 48) rest
      rejectFloat p.1 p.2
    else none

/-- A JSON number literal (integer subset): optional minus sign and an
integer part. -/
def parseNum (l : List Char) : Option (Int × List Char) :=
  match l with
  | '-' :: rest => (parseIntPart rest).map (fun p => (-(p.1 : Int), p.2))
  | _ => (parseIntPart l).map (fun p => ((p.1 : Int), p.2))

mutual

/-- One JSON value, by first character after whitespace. Fuel bounds the
recursion; every recursive step consumes input, so json_loads passes
enough fuel for any input. -/
def parseValue : Nat → List Char → Option (Json × List Char)
  | 0, _ => none
  | fuel + 1, l =>
    match skipWS l with
    | 'n' :: 'u' :: 'l' :: 'l' :: rest => some (.null, rest)
    | 't' :: 'r' :: 'u' :: 'e' :: rest => some (.bool true, rest)
    | 'f' :: 'a' :: 'l' :: 's' :: 'e' :: rest => some (.bool false, rest)
    | '"' :: rest => (parseStringAux rest).map (fun p => (.str (String.mk p.1), p.2))
    | '[' :: rest =>
      (match skipWS rest with
       | ']' :: rest2 => some (.arr [], rest2)
       | _ => (parseItems fuel rest).map (fun p => (.arr p.1, p.2)))
    | '{' :: rest =>
      (match skipWS rest with
       | '}' :: rest2 => some (.obj [], rest2)
       | _ => (parseMembers fuel rest).map (fun p => (.obj p.1, p.2)))
    | l2 => (parseNum l2).map (fun p => (.num p.1, p.2))

/-- Comma-separated array items up to the closing bracket. -/
def parseItems : Nat → List Char → Option (List Json × List Char)
  | 0, _ => none
  | fuel + 1, l =>
    match parseValue fuel l with
    | none => none
    | some (v, rest) =>
      match skipWS rest with
      | ',' :: rest2 => (parseItems fuel rest2).map (fun p => (v :: p.1, p.2))
      | ']' :: rest2 => some ([v], rest2)
      | _ => none

/-- Comma-separated object members (quoted key, colon, value) up to the
closing brace. -/
def parseMembers : Nat → List Char → Option (List (String × Json) × List Char)
  | 0, _ => none
  | fuel + 1, l =>
    match skipWS l with
    | '"' :: rest =>
      (match parseStringAux rest with
       | none => none
       | some (k, rest1) =>
         match skipWS rest1 with
         | ':' :: rest2 =>
           (match parseValue fuel rest2 with
            | none => none
            | some (v, rest3) =>
              match skipWS rest3 with
              | ',' :: rest4 =>
                (parseMembers fuel rest4).map
                  (fun p => ((String.mk k, v) :: p.1, p.2))
              | '}' :: rest4 => some ([(String.mk k, v)], rest4)
              | _ => none)
         | _ => none)
    | _ => none

end

/-- Python json.loads: parse one JSON document and require that nothing
but whitespace follows it; none models the JSONDecodeError raised on any
malformed input. -/
def json_loads (cs : List Char) : Option Json :=
  match parseValue (cs.length + 2) cs with
  | some (v, rest) => if (skipWS rest).isEmpty then some v else none
  | none => none

/-- Client state from DAPClient.__init__: debug_port 5678, no socket yet,
seq counter starting at 1. The socket field holds the identity of the
connected socket object (None before connect). -/
structure DAPClient where
  debug_port : Int
  socket : Option Nat
  seq : Int

/-- DAPClient.__init__. -/
def DAPClient.init : DAPClient :=
  { debug_port := 5678, socket := none, seq := 1 }

/-- Python `arguments or {}`: None and the falsy empty dict are replaced
by an empty dict. -/
def pyOrEmptyDict : Option Json → Json
  | none => .obj []
  | some a => if a.truthy then a else .obj []

/-- The request dict built by send_request from the current seq counter. -/
def buildRequest (seq : Int) (command : String) (arguments : Option Json) : Json :=
  .obj [("seq", .num seq), ("type", .str "request"),
        ("command", .str command), ("arguments", pyOrEmptyDict arguments)]

/-- The framed wire text of send_request: the Content-Length header with
the UTF-8 byte length of the serialized body, a blank line, and the body. -/
def frameText (message : List Char) : List Char :=
  "Content-Length: ".data ++ intToChars ((utf8Encode message).length : Int)
    ++ [Char.ofNat 13, Char.ofNat 10, Char.ofNat 13, Char.ofNat 10] ++ message

/-- Whether a received message is the matching response for the command
just sent: response.get("type") == "response" and
response.get("command") == command. -/
def isMatchingResponse (command : String) (m : Json) : Bool :=
  (match m.get "type" with
   | some (.str t) => t == "response"
   | _ => false)
  && (match m.get "command" with
      | some (.str c) => c == command
      | _ => false)

/-- Whether a received message is the event with the given name:
response.get("type") == "event" and response.get("event") == name. -/
def isNamedEvent (name : String) (m : Json) : Bool :=
  (match m.get "type" with
   | some (.str t) => t == "event"
   | _ => false)
  && (match m.get "event" with
      | some (.str e) => e == name
      | _ => false)

/-- Result of the reading phase of send_request. -/
inductive SendOutcome where
  | noWait
  | response (r : Json)
  | attrError
  | hang

/-- The response-awaiting loop of send_request: read messages, skip any
that is not a response to this command, return the first match. A closed
message stream makes read_response spin forever, so an exhausted list is
a hang; a non-dict message makes response.get raise AttributeError. -/
def awaitResponse (command : String) : List Json → SendOutcome × List Json
  | [] => (.hang, [])
  | m :: rest =>
    if m.isObj then
      if isMatchingResponse command m then (.response m, rest)
      else awaitResponse command rest
    else (.attrError, m :: rest)

/-- Everything send_request produces: the mutated client, the request
dict it built, the framed text written to the socket, the messages left
unread on the stream, and the returned value. -/
structure SendResult where
  client : DAPClient
  request : Json
  wire : List Char
  stream : List Json
  outcome : SendOutcome

/-- DAPClient.send_request: build the request from the current seq,
advance seq, frame and write the serialized request, then either return
immediately (wait_for_response false) or loop reading until the matching
response. The stream holds the messages read_response would yield in
order. -/
def sendRequest (st : DAPClient) (stream : List Json) (command : String)
    (arguments : Option Json) (wait_for_response : Bool) : SendResult :=
  let request := buildRequest st.seq command arguments
  let st' := { st with seq := st.seq + 1 }
  let message := pyDumps request
  let wire := frameText message
  if wait_for_response then
    let r := awaitResponse command stream
    { client := st', request := request, wire := wire,
      stream := r.2, outcome := r.1 }
  else
    { client := st', request := request, wire := wire,
      stream := stream, outcome := .noWait }

/-- The inline wait loops of initialize_session (initialized) and
start_debug_session (stopped): read messages until the first event with
the given name, discarding everything before it. none models the hang on
a closed stream; the matching event and the unread remainder are
returned. -/
def waitForEvent (name : String) : List Json → Option (Json × List Json)
  | [] => none
  | m :: rest =>
    if m.isObj then
      if isNamedEvent name m then some (m, rest)
      else waitForEvent name rest
    else none

/-- DAPClient.set_breakpoints: one setBreakpoints request whose arguments
carry the absolute source path and one line record per requested line,
awaited synchronously. abspath stands for os.path.abspath, an environment
function mapping a path to its absolute form. -/
def set_breakpoints (abspath : String → String) (st : DAPClient)
    (stream : List Json) (file_path : String) (lines : List Int) : SendResult :=
  sendRequest st stream "setBreakpoints"
    (some (.obj [("source", .obj [("path", .str (abspath file_path))]),
                 ("breakpoints", .arr (lines.map (fun line => .obj [("line", .num line)])))]))
    true

/-- A byte stream as the network delivers it: the successive byte groups
that socket.recv calls will hand back. Each group is what one delivery
carries; after the last group the peer has closed the stream. -/
abbrev Chunks := List (List Nat)

/-- All bytes of the stream in order. -/
def flat (s : Chunks) : List Nat := s.flatten

/-- socket.recv(n): block for the next delivery and hand back at most n
of its bytes, leaving the remainder for the next call. An empty result
means the stream is closed (recv on a closed socket yields b""). -/
def recv (n : Nat) : Chunks → List Nat × Chunks
  | [] => ([], [])
  | c :: cs =>
    if c.isEmpty then recv n cs
    else (c.take n, if c.length ≤ n then cs else c.drop n :: cs)

/-- The header terminator bytes b"\x0d\x0a\x0d\x0a". -/
def crlfcrlf : List Nat := [13, 10, 13, 10]

/-- The header loop of read_response: while the terminator has not been
seen, append the next single received byte; none models the infinite loop
entered when recv keeps returning b"" on a closed stream. Each iteration
consumes one byte of the stream, so the fuel readHeaders passes is never
exhausted before the loop exits or the stream closes. -/
def readHeadersAux : Nat → List Nat → Chunks → Option (List Nat × Chunks)
  | 0, _, _ => none
  | fuel + 1, headers, s =>
    if bytesContains crlfcrlf headers then some (headers, s)
    else
      let r := recv 1 s
      if r.1.isEmpty then none
      else readHeadersAux fuel (headers ++ r.1) r.2

/-- The header loop entered with the whole stream ahead of it. -/
def readHeaders (headers : List Nat) (s : Chunks) : Option (List Nat × Chunks) :=
  readHeadersAux ((flat s).length + 1) headers s

/-- The body loop of read_response: while fewer than content_length bytes
have arrived, request the remainder; none models the infinite loop on a
closed stream. Each iteration consumes at least one byte, so the fuel
readBody passes is never exhausted before the loop exits or the stream
closes. -/
def readBodyAux : Nat → List Nat → Int → Chunks → Option (List Nat × Chunks)
  | 0, _, _, _ => none
  | fuel + 1, body, content_length, s =>
    if (body.length : Int) < content_length then
      let r := recv (content_length - body.length).toNat s
      if r.1.isEmpty then none
      else readBodyAux fuel (body ++ r.1) content_length r.2
    else some (body, s)

/-- The body loop entered with the whole remaining stream ahead of it. -/
def readBody (body : List Nat) (content_length : Int) (s : Chunks) :
    Option (List Nat × Chunks) :=
  readBodyAux ((flat s).length + 1) body content_length s

/-- The Python exceptions read_response can propagate, together with the
ProtocolError and ConnectionError named by the specification. The code
defines neither of the latter two; they are present only so that the
specified error taxonomy can be stated and compared with what the code
does. -/
inductive PyExc where
  | indexError
  | valueError
  | unicodeDecodeError
  | jsonDecodeError
  | protocolError
  | connectionError
deriving DecidableEq

/-- What one read_response call does: return a parsed message leaving the
rest of the stream, raise an exception, or never return. -/
inductive ReadOutcome where
  | ok (msg : Json) (rest : Chunks)
  | exc (e : PyExc)
  | hang

/-- DAPClient.read_response: accumulate header bytes one at a time until
b"\x0d\x0a\x0d\x0a", decode them, take the text after "Content-Length: "
(IndexError if the header lacks it) up to the next line break, parse it
as an int (ValueError if malformed), then accumulate exactly that many
body bytes and JSON-decode them (JSONDecodeError on malformed JSON). -/
def read_response (s : Chunks) : ReadOutcome :=
  match readHeaders [] s with
  | none => .hang
  | some (headers, s1) =>
    match utf8Decode headers with
    | none => .exc .unicodeDecodeError
    | some header_str =>
      match (pySplit "Content-Length: ".data header_str).get? 1 with
      | none => .exc .indexError
      | some afterCL =>
        let lenStr := (pySplit [Char.ofNat 13, Char.ofNat 10] afterCL).headD []
        match pyInt lenStr with
        | none => .exc .valueError
        | some content_length =>
          match readBody [] content_length s1 with
          | none => .hang
          | some (body, s2) =>
            match utf8Decode body with
            | none => .exc .unicodeDecodeError
            | some bodyChars =>
              match json_loads bodyChars with
              | none => .exc .jsonDecodeError
              | some j => .ok j s2


/-- The body stage of read_response, entered once the header block has
been parsed and a content length extracted: read content_length bytes,
decode them as UTF-8 and parse them as JSON. -/
def bodyStage (content_length : Int) (s1 : Chunks) : ReadOutcome :=
  match readBody [] content_length s1 with
  | none => .hang
  | some (body, s2) =>
    match utf8Decode body with
    | none => .exc .unicodeDecodeError
    | some bodyChars =>
      match json_loads bodyChars with
      | none => .exc .jsonDecodeError
      | some j => .ok j s2

/-- Whether pat occurs as a contiguous run inside l (the Python
`pat in str` test on text). -/
def charsContains (pat l : List Char) : Bool :=
  l.tails.any (fun t => pat.isPrefixOf t)

/-- Reference semantics of the header loop over the flat byte sequence:
what read_response's header loop computes when every recv hands back
exactly one byte of the stream. -/
def specHeaders : List Nat → List Nat → Option (List Nat × List Nat)
  | headers, [] => if bytesContains crlfcrlf headers then some (headers, []) else none
  | headers, b :: rest =>
    if bytesContains crlfcrlf headers then some (headers, b :: rest)
    else specHeaders (headers ++ [b]) rest

/-- Reference semantics of the body loop over the flat byte sequence:
with fewer than the needed bytes left the loop eventually reads from the
closed stream and spins (none); otherwise it accumulates exactly the
needed bytes. -/
def specBody (body : List Nat) (content_length : Int) (bytes : List Nat) :
    Option (List Nat × List Nat) :=
  if (body.length : Int) < content_length then
    if bytes.isEmpty then none
    else
      let need := (content_length - body.length).toNat
      if bytes.length < need then none
      else some (body ++ bytes.take need, bytes.drop need)
  else some (body, bytes)

/-- What a read_response call yields, forgetting how the unread remainder
of the stream happens to be chunked. -/
inductive ReadSummary where
  | okMsg (msg : Json)
  | failed (e : PyExc)
  | hung

/-- The summary of an outcome. -/
def resultOf : ReadOutcome → ReadSummary
  | .ok msg _ => .okMsg msg
  | .exc e => .failed e
  | .hang => .hung

/-- The unread bytes an outcome leaves, when it leaves any. -/
def restFlat : ReadOutcome → Option (List Nat)
  | .ok _ rest => some (flat rest)
  | _ => none

/-- One send_request call description: command, arguments, wait flag. -/
structure SendCall where
  command : String
  arguments : Option Json
  wait : Bool

/-- Run a sequence of send_request calls on one client, collecting the
request dicts actually sent. A call whose reading phase hangs or raises
still wrote its request first, but no later call runs. -/
def sendAll (st : DAPClient) (stream : List Json) : List SendCall → List Json
  | [] => []
  | c :: rest =>
    let r := sendRequest st stream c.command c.arguments c.wait
    match r.outcome with
    | .hang => [r.request]
    | .attrError => [r.request]
    | _ => r.request :: sendAll r.client r.stream rest

/-- Observable resource events of start_debug_session: a handshake step
running, the session socket being closed, the debuggee process being
terminated, the debuggee process being reaped by wait(). -/
inductive Ev where
  | step (i : Nat)
  | sockClose
  | procTerminate
  | procWait
deriving DecidableEq

/-- Whether a raised exception is an Exception (caught by the except
clause of start_debug_session) or a BaseException such as
KeyboardInterrupt (not caught; still runs the finally block). -/
inductive ExnKind where
  | exception
  | baseException
deriving DecidableEq

/-- Driver state: whether self.client.socket has been assigned a socket
object, and the resource events so far. -/
structure DrvState where
  opened : Bool
  trace : List Ev

/-- Effect of handshake step i completing: step 0 is the socket.socket
call inside connect, whose successful return assigns self.client.socket;
every step appends its event. -/
def stepEffect (i : Nat) (st : DrvState) : DrvState :=
  { opened := st.opened || decide (i = 0), trace := st.trace ++ [.step i] }

/-- Run the handshake steps with the given indices in order. failAt
schedules at most one failure: reaching that step raises the given kind
of exception instead of running the step, and no later step runs. -/
def runSteps (failAt : Option (Nat × ExnKind)) :
    List Nat → DrvState → DrvState × Option ExnKind
  | [], st => (st, none)
  | i :: rest, st =>
    match failAt with
    | some (j, k) =>
      if i = j then (st, some k)
      else runSteps failAt rest (stepEffect i st)
    | none => runSteps failAt rest (stepEffect i st)

/-- Python try/except Exception/finally: on normal completion the finally
block runs; a raised Exception is caught by the handler (which only
prints) and the finally block runs; a BaseException skips the handler,
still runs the finally block, and propagates. The handler and finally
blocks of start_debug_session raise nothing themselves. -/
def pyTryExceptFinally (body : DrvState → DrvState × Option ExnKind)
    (handler : DrvState → DrvState) (final : DrvState → DrvState)
    (st : DrvState) : DrvState × Option ExnKind :=
  match body st with
  | (st1, none) => (final st1, none)
  | (st1, some .exception) => (final (handler st1), none)
  | (st1, some .baseException) => (final st1, some .baseException)

/-- The finally block of start_debug_session: close the socket if one was
assigned, then terminate and reap the debuggee process. -/
def teardown (st : DrvState) : DrvState :=
  { st with
    trace := st.trace ++ (if st.opened then [.sockClose] else [])
      ++ [.procTerminate, .procWait] }

/-- The handshake steps inside the try block, in source order:
0 socket.socket, 1 socket.connect, 2 initialize request/response,
3 attach request, 4 wait for the initialized event, 5 setBreakpoints,
6 configurationDone, 7 wait for the stopped event, 8 stackTrace,
9 scopes, 10 the variables loop. -/
def handshakeStepCount : Nat := 11

/-- DAPDebugger.start_debug_session after the debuggee process has been
spawned: the handshake body inside try, the except Exception handler that
only prints, and the finally teardown. failAt chooses which handshake
step, if any, raises. -/
def start_debug_session (failAt : Option (Nat × ExnKind)) :
    DrvState × Option ExnKind :=
  pyTryExceptFinally (runSteps failAt (List.range handshakeStepCount))
    (fun st => st) teardown { opened := false, trace := [] }

/-- Which handshake steps complete under the given failure schedule. -/
def stepsRun (failAt : Option (Nat × ExnKind)) : List Ev :=
  match failAt with
  | none => (List.range handshakeStepCount).map .step
  | some (j, _) =>
    ((List.range handshakeStepCount).takeWhile (fun i => decide (i ≠ j))).map .step

/-- Whether the session socket gets assigned under the given failure
schedule: only a failure of the very first step (the socket.socket call)
leaves self.client.socket as None. -/
def socketOpened (failAt : Option (Nat × ExnKind)) : Bool :=
  match failAt with
  | some (0, _) => false
  | _ => true

/-- The teardown events the finally block appends. -/
def teardownEvents (opened : Bool) : List Ev :=
  (if opened then [.sockClose] else []) ++ [.procTerminate, .procWait]

/-! Theorems. First the basic lemmas about the byte stream and the
reading loops, then one theorem per specification claim. -/

theorem recv_flat (n : Nat) (s : Chunks) :
    (recv n s).1 ++ flat (recv n s).2 = flat s := by
  induction s with
  | nil => simp [recv, flat]
  | cons c cs ih =>
    by_cases hc : c.isEmpty
    · have hce : c = [] := List.isEmpty_iff.mp hc
      simpa [recv, hc, flat, hce] using ih
    · by_cases hlen : c.length ≤ n
      · simp [recv, hc, hlen, flat, List.take_of_length_le hlen]
      · simp only [recv, if_neg hc, if_neg hlen, flat, List.flatten_cons]
        rw [← List.append_assoc, List.take_append_drop]

theorem recv_rest_lt {n : Nat} {s : Chunks} (h : ¬(recv n s).1.isEmpty = true) :
    (flat (recv n s).2).length < (flat s).length := by
  have hf := recv_flat n s
  have hsum : (recv n s).1.length + (flat (recv n s).2).length = (flat s).length := by
    rw [← hf, List.length_append]
  have hne : (recv n s).1 ≠ [] := fun he => h (by rw [he]; rfl)
  have : 0 < (recv n s).1.length := List.length_pos.mpr hne
  omega

theorem recv_take_len (n : Nat) (s : Chunks) : (recv n s).1.length ≤ n := by
  induction s with
  | nil => simp [recv]
  | cons c cs ih =>
    by_cases hc : c.isEmpty
    · simpa [recv, hc] using ih
    · simp [recv, hc, List.length_take]

theorem recv_nil_iff {n : Nat} (hn : 1 ≤ n) (s : Chunks) :
    ((recv n s).1 = [] ↔ flat s = []) := by
  induction s with
  | nil => simp [recv, flat]
  | cons c cs ih =>
    by_cases hc : c.isEmpty
    · have hce : c = [] := List.isEmpty_iff.mp hc
      simpa [recv, hc, flat, hce] using ih
    · have hce : c ≠ [] := fun h => hc (by rw [h]; rfl)
      obtain ⟨x, c2, rfl⟩ := List.exists_cons_of_ne_nil hce
      cases n with
      | zero => omega
      | succ k => simp [recv, hc, flat]

theorem recv_one {s : Chunks} (h : flat s ≠ []) :
    (recv 1 s).1 = (flat s).take 1 ∧ flat (recv 1 s).2 = (flat s).drop 1 := by
  have hflat := recv_flat 1 s
  have hne : (recv 1 s).1 ≠ [] := fun he => h ((recv_nil_iff (by omega) s).mp he)
  have hlen : (recv 1 s).1.length = 1 := by
    have := recv_take_len 1 s
    have : 0 < (recv 1 s).1.length := List.length_pos.mpr hne
    omega
  constructor
  · rw [← hflat, List.take_append_of_le_length (by omega),
      List.take_of_length_le (by omega)]
  · rw [← hflat, List.drop_append_of_le_length (by omega),
      List.drop_eq_nil_of_le (by omega), List.nil_append]

theorem readHeadersAux_spec (fuel : Nat) :
    ∀ (headers : List Nat) (s : Chunks), (flat s).length < fuel →
      (readHeadersAux fuel headers s).map (Prod.map id flat)
        = specHeaders headers (flat s) := by
  induction fuel with
  | zero => intro headers s h; omega
  | succ fuel ih =>
    intro headers s h
    by_cases hterm : bytesContains crlfcrlf headers
    · cases hfs : flat s with
      | nil => simp [readHeadersAux, hterm, specHeaders, hfs]
      | cons b t => simp [readHeadersAux, hterm, specHeaders, hfs]
    · by_cases hr : (recv 1 s).1.isEmpty
      · have he : (recv 1 s).1 = [] := List.isEmpty_iff.mp hr
        have hfs : flat s = [] := (recv_nil_iff (by omega) s).mp he
        simp [readHeadersAux, hterm, hr, specHeaders, hfs]
      · have hne : flat s ≠ [] := by
          intro hfs
          have he2 : (recv 1 s).1 = [] := (recv_nil_iff (by omega) s).mpr hfs
          rw [he2] at hr
          exact hr rfl
        obtain ⟨b, t, hbt⟩ := List.exists_cons_of_ne_nil hne
        obtain ⟨h1, h2⟩ := recv_one hne
        rw [hbt] at h1 h2
        simp only [List.take_cons, List.take_zero, List.drop_succ_cons,
          List.drop_zero] at h1 h2
        have hlt : (flat (recv 1 s).2).length < fuel := by
          rw [h2]
          rw [hbt] at h
          simp at h ⊢
          omega
        have := ih (headers ++ (recv 1 s).1) (recv 1 s).2 hlt
        rw [h1] at this
        rw [hbt]
        simp only [readHeadersAux, hterm, if_false, hr, Bool.false_eq_true,
          specHeaders]
        rw [h2] at this
        simpa [hterm, hr, h1] using this

theorem readHeaders_spec (headers : List Nat) (s : Chunks) :
    (readHeaders headers s).map (Prod.map id flat) = specHeaders headers (flat s) :=
  readHeadersAux_spec ((flat s).length + 1) headers s (by omega)

theorem specBody_absorb (body : List Nat) (n : Int) (bytes : List Nat) (m : Nat)
    (hm1 : 1 ≤ m) (hm2 : (m : Int) ≤ n - (body.length : Int)) (hmb : m ≤ bytes.length) :
    specBody (body ++ bytes.take m) n (bytes.drop m) = specBody body n bytes := by
  have hLn : ((body.length : Int)) < n := by omega
  have htk : (bytes.take m).length = m := by
    rw [List.length_take]
    omega
  simp only [specBody, List.length_append, htk, List.length_drop,
    List.isEmpty_iff, List.drop_eq_nil_iff]
  split_ifs with h1 h2 h3 h4 h5 h6 h7 h8 h9 h10
  all_goals try first | rfl | omega
  · rw [h8] at h2
    exact absurd (by simp) h2
  · have hneed : (n - (body.length : Int)).toNat
        = m + (n - ((body.length + m : Nat) : Int)).toNat := by
      push_cast
      omega
    rw [Option.some.injEq, Prod.mk.injEq]
    constructor
    · rw [hneed, List.take_add, List.append_assoc]
    · rw [hneed, List.drop_drop]
  · rw [h10] at hmb
    simp at hmb
    omega
  · have hmeq : (n - (body.length : Int)).toNat = m := by
      push_cast at h1
      omega
    rw [hmeq]

theorem readBodyAux_spec (fuel : Nat) :
    ∀ (body : List Nat) (n : Int) (s : Chunks), (flat s).length < fuel →
      (readBodyAux fuel body n s).map (Prod.map id flat) = specBody body n (flat s) := by
  induction fuel with
  | zero => intro body n s h; omega
  | succ fuel ih =>
    intro body n s h
    by_cases hlt : (body.length : Int) < n
    · by_cases hr : (recv (n - (body.length : Int)).toNat s).1.isEmpty
      · have hone : 1 ≤ (n - (body.length : Int)).toNat := by omega
        have hfs : flat s = [] := (recv_nil_iff hone s).mp (List.isEmpty_iff.mp hr)
        have hLHS : readBodyAux (fuel + 1) body n s = none := by
          simp only [readBodyAux, if_pos hlt]
          rw [if_pos hr]
        have hRHS : specBody body n (flat s) = none := by
          rw [hfs]
          simp [specBody, hlt]
        rw [hLHS, hRHS]
        rfl
      · have hne : (recv (n - (body.length : Int)).toNat s).1 ≠ [] :=
          fun he => hr (by rw [he]; rfl)
        have hflat := recv_flat (n - (body.length : Int)).toNat s
        have hm0 : 0 < (recv (n - (body.length : Int)).toNat s).1.length :=
          List.length_pos.mpr hne
        have hmle : (recv (n - (body.length : Int)).toNat s).1.length
            ≤ (n - (body.length : Int)).toNat := recv_take_len _ s
        have htake : (flat s).take
              (recv (n - (body.length : Int)).toNat s).1.length
            = (recv (n - (body.length : Int)).toNat s).1 := by
          rw [← hflat, List.take_left]
        have hdrop : (flat s).drop
              (recv (n - (body.length : Int)).toNat s).1.length
            = flat (recv (n - (body.length : Int)).toNat s).2 := by
          rw [← hflat, List.drop_left]
        have hsum : (recv (n - (body.length : Int)).toNat s).1.length
              + (flat (recv (n - (body.length : Int)).toNat s).2).length
            = (flat s).length := by
          rw [← congrArg List.length hflat, List.length_append]
        have hlen2 : (flat (recv (n - (body.length : Int)).toNat s).2).length
            < fuel := by omega
        have ihres := ih (body ++ (recv (n - (body.length : Int)).toNat s).1)
          n (recv (n - (body.length : Int)).toNat s).2 hlen2
        have habs := specBody_absorb body n (flat s)
          (recv (n - (body.length : Int)).toNat s).1.length
          hm0 (by omega) (by omega)
        rw [htake, hdrop] at habs
        rw [← habs, ← ihres]
        simp only [readBodyAux, if_pos hlt]
        rw [if_neg hr]
    · simp [readBodyAux, hlt, specBody]

theorem readBody_spec (body : List Nat) (n : Int) (s : Chunks) :
    (readBody body n s).map (Prod.map id flat) = specBody body n (flat s) :=
  readBodyAux_spec ((flat s).length + 1) body n s (by omega)

theorem flat_single (bytes : List Nat) : flat [bytes] = bytes := by
  simp [flat]

/-- C4: read_response is read-size independent: however the same byte
sequence is split into partial recv deliveries, the parsed message (or
the exception, or the hang) is identical to delivering all bytes in a
single read, and the unread bytes left behind are the same. -/
theorem read_response_chunking_invariant (s : Chunks) :
    resultOf (read_response s) = resultOf (read_response [flat s])
    ∧ restFlat (read_response s) = restFlat (read_response [flat s]) := by
  have hH := readHeaders_spec [] s
  have hH2 := readHeaders_spec [] [flat s]
  rw [flat_single] at hH2
  rw [← hH2] at hH
  unfold read_response
  cases e1 : readHeaders [] s with
  | none =>
    rw [e1] at hH
    cases e2 : readHeaders [] [flat s] with
    | none => exact ⟨rfl, rfl⟩
    | some p2 =>
      rw [e2] at hH
      simp at hH
  | some p1 =>
    obtain ⟨hdrs1, s1⟩ := p1
    cases e2 : readHeaders [] [flat s] with
    | none =>
      rw [e1, e2] at hH
      simp at hH
    | some p2 =>
      obtain ⟨hdrs2, s2⟩ := p2
      rw [e1, e2] at hH
      simp only [Option.map_some', Option.some.injEq, Prod.map, id_eq,
        Prod.mk.injEq] at hH
      obtain ⟨hhd, hfl⟩ := hH
      subst hhd
      dsimp only []
      cases hdec : utf8Decode hdrs1 with
      | none => exact ⟨rfl, rfl⟩
      | some header_str =>
        dsimp only []
        cases hget : (pySplit "Content-Length: ".data header_str).get? 1 with
        | none => exact ⟨rfl, rfl⟩
        | some afterCL =>
          dsimp only []
          cases hint : pyInt ((pySplit [Char.ofNat 13, Char.ofNat 10] afterCL).headD []) with
          | none => exact ⟨rfl, rfl⟩
          | some content_length =>
            dsimp only []
            have hB := readBody_spec [] content_length s1
            have hB2 := readBody_spec [] content_length s2
            rw [← hfl] at hB2
            rw [← hB2] at hB
            cases f1 : readBody [] content_length s1 with
            | none =>
              rw [f1] at hB
              cases f2 : readBody [] content_length s2 with
              | none => exact ⟨rfl, rfl⟩
              | some q2 =>
                rw [f2] at hB
                simp at hB
            | some q1 =>
              obtain ⟨body1, s12⟩ := q1
              cases f2 : readBody [] content_length s2 with
              | none =>
                rw [f1, f2] at hB
                simp at hB
              | some q2 =>
                obtain ⟨body2, s22⟩ := q2
                rw [f1, f2] at hB
                simp only [Option.map_some', Option.some.injEq, Prod.map, id_eq,
                  Prod.mk.injEq] at hB
                obtain ⟨hbd, hfl2⟩ := hB
                subst hbd
                dsimp only []
                cases hdec2 : utf8Decode body1 with
                | none => exact ⟨rfl, rfl⟩
                | some bodyChars =>
                  dsimp only []
                  cases hjson : json_loads bodyChars with
                  | none => exact ⟨rfl, rfl⟩
                  | some j =>
                    refine ⟨rfl, ?_⟩
                    simp only [restFlat, hfl2]

theorem charsContains_cons (sep : List Char) (c : Char) (l : List Char) :
    charsContains sep (c :: l) = (sep.isPrefixOf (c :: l) || charsContains sep l) := by
  simp [charsContains, List.tails_cons]

theorem bytesContains_cons (pat : List Nat) (b : Nat) (l : List Nat) :
    bytesContains pat (b :: l) = (pat.isPrefixOf (b :: l) || bytesContains pat l) := by
  simp [bytesContains, List.tails_cons]

theorem bytesContains_nil_pat (l : List Nat) : bytesContains [] l = true := by
  cases l with
  | nil => rfl
  | cons b r => rw [bytesContains_cons]; rfl

theorem bytesContains_append_right {pat l1 : List Nat} (l2 : List Nat)
    (h : bytesContains pat l1 = true) : bytesContains pat (l1 ++ l2) = true := by
  induction l1 with
  | nil =>
    have hp : pat = [] := by
      simp only [bytesContains, List.any_eq_true] at h
      obtain ⟨t, ht, hpre⟩ := h
      simp only [List.tails, List.mem_singleton] at ht
      rw [ht] at hpre
      exact List.prefix_nil.mp (List.isPrefixOf_iff_prefix.mp hpre)
    rw [hp]
    exact bytesContains_nil_pat _
  | cons b r ih =>
    rw [bytesContains_cons] at h
    rw [List.cons_append, bytesContains_cons]
    rcases Bool.or_eq_true_iff.mp h with h1 | h1
    · have hpre : pat <+: (b :: r) := List.isPrefixOf_iff_prefix.mp h1
      have : pat <+: (b :: r) ++ l2 := hpre.trans (List.prefix_append _ _)
      rw [List.isPrefixOf_iff_prefix.mpr (by simpa using this)]
      rfl
    · rw [ih h1]
      simp

theorem bytesContains_prefix_false {pat l1 : List Nat} (l2 : List Nat)
    (h : bytesContains pat (l1 ++ l2) = false) : bytesContains pat l1 = false := by
  cases hc : bytesContains pat l1 with
  | false => rfl
  | true => rw [bytesContains_append_right l2 hc] at h; cases h

theorem readHeadersAux_no_terminator (fuel : Nat) :
    ∀ (headers : List Nat) (s : Chunks),
      bytesContains crlfcrlf (headers ++ flat s) = false →
      readHeadersAux fuel headers s = none := by
  induction fuel with
  | zero => intro headers s _; rfl
  | succ fuel ih =>
    intro headers s hcc
    have hh : bytesContains crlfcrlf headers = false := bytesContains_prefix_false _ hcc
    by_cases hr : (recv 1 s).1.isEmpty
    · simp [readHeadersAux, hh, hr]
    · have hstep : bytesContains crlfcrlf
          ((headers ++ (recv 1 s).1) ++ flat (recv 1 s).2) = false := by
        rw [List.append_assoc, recv_flat]
        exact hcc
      have hres := ih (headers ++ (recv 1 s).1) (recv 1 s).2 hstep
      simp [readHeadersAux, hh, hr, hres]

theorem pySplitAux_fuel_irrelevant (f1 : Nat) :
    ∀ (f2 : Nat) (sep s : List Char), sep ≠ [] → s.length < f1 → s.length < f2 →
      pySplitAux f1 sep s = pySplitAux f2 sep s := by
  induction f1 with
  | zero => intro f2 sep s _ h1 _; omega
  | succ f1 ih =>
    intro f2 sep s hsep h1 h2
    cases f2 with
    | zero => omega
    | succ f2 =>
      have hslen : 1 ≤ sep.length := by
        cases sep with
        | nil => exact absurd rfl hsep
        | cons a b => simp
      by_cases hpre : sep.isPrefixOf s
      · have hdl : (s.drop sep.length).length < f1 := by
          have hle : sep.length ≤ s.length :=
            (List.isPrefixOf_iff_prefix.mp hpre).length_le
          rw [List.length_drop]
          omega
        have hdl2 : (s.drop sep.length).length < f2 := by
          have hle : sep.length ≤ s.length :=
            (List.isPrefixOf_iff_prefix.mp hpre).length_le
          rw [List.length_drop]
          omega
        simp only [pySplitAux, hpre, if_true]
        rw [ih f2 sep _ hsep hdl hdl2]
      · cases s with
        | nil => simp [pySplitAux, hpre]
        | cons c rest =>
          have hrl : rest.length < f1 := by simp at h1; omega
          have hrl2 : rest.length < f2 := by simp at h2; omega
          simp only [pySplitAux, hpre, if_false, Bool.false_eq_true]
          rw [ih f2 sep rest hsep hrl hrl2]

theorem pySplit_def_prefix (sep tail : List Char) (hne : sep ≠ []) :
    pySplit sep (sep ++ tail) = [] :: pySplit sep tail := by
  have hslen : sep.length ≠ 0 := by
    cases sep with
    | nil => exact absurd rfl hne
    | cons a b => simp
  have hpre : sep.isPrefixOf (sep ++ tail) :=
    List.isPrefixOf_iff_prefix.mpr (List.prefix_append _ _)
  unfold pySplit
  rw [if_neg hslen, if_neg hslen]
  have hstep : pySplitAux ((sep ++ tail).length + 1) sep (sep ++ tail)
      = [] :: pySplitAux (sep ++ tail).length sep ((sep ++ tail).drop sep.length) := by
    simp only [pySplitAux, hpre, if_true]
  rw [hstep, List.drop_left]
  have hlen1 : tail.length < (sep ++ tail).length := by
    rw [List.length_append]
    cases sep with
    | nil => exact absurd rfl hne
    | cons a b => simp only [List.length_cons]; omega
  rw [pySplitAux_fuel_irrelevant _ (tail.length + 1) sep tail hne hlen1 (by omega)]

theorem pySplit_step (s0 : Char) (ss : List Char) (c : Char) (rest : List Char)
    (hc : c ≠ s0) :
    pySplit (s0 :: ss) (c :: rest) = consHead c (pySplit (s0 :: ss) rest) := by
  have hpre : (s0 :: ss).isPrefixOf (c :: rest) = false := by
    simp only [List.isPrefixOf]
    rw [Bool.and_eq_false_iff]
    left
    rw [beq_eq_false_iff_ne]
    exact fun h => hc h.symm
  unfold pySplit
  rw [if_neg (by simp), if_neg (by simp)]
  simp only [List.length_cons, pySplitAux, hpre, Bool.false_eq_true, if_false]

theorem pySplit_through (s0 : Char) (ss l1 l2 : List Char) (h : ∀ c ∈ l1, c ≠ s0) :
    pySplit (s0 :: ss) (l1 ++ (s0 :: ss) ++ l2) = l1 :: pySplit (s0 :: ss) l2 := by
  induction l1 with
  | nil => simpa using pySplit_def_prefix (s0 :: ss) l2 (by simp)
  | cons c r ih =>
    have hc : c ≠ s0 := h c (by simp)
    rw [List.cons_append, List.cons_append, pySplit_step s0 ss c _ hc,
      ih (fun x hx => h x (by simp [hx]))]
    rfl

theorem pySplitAux_no_occurrence (fuel : Nat) :
    ∀ (sep str : List Char), str.length < fuel →
      charsContains sep str = false → pySplitAux fuel sep str = [str] := by
  induction fuel with
  | zero => intro sep str h _; omega
  | succ fuel ih =>
    intro sep str h hcc
    have hpre : sep.isPrefixOf str = false := by
      cases hq : sep.isPrefixOf str with
      | false => rfl
      | true =>
        have hc : charsContains sep str = true := by
          unfold charsContains
          rw [List.any_eq_true]
          exact ⟨str, (List.mem_tails _ _).mpr (List.suffix_refl _), hq⟩
        rw [hc] at hcc
        cases hcc
    cases str with
    | nil => simp [pySplitAux, hpre]
    | cons c rest =>
      have hrest : charsContains sep rest = false := by
        rw [charsContains_cons] at hcc
        exact (Bool.or_eq_false_iff.mp hcc).2
      have hrl : rest.length < fuel := by simp at h; omega
      simp [pySplitAux, hpre, ih sep rest hrl hrest, consHead]

theorem pySplit_no_occurrence (sep str : List Char)
    (hcc : charsContains sep str = false) : pySplit sep str = [str] := by
  unfold pySplit
  by_cases hs : sep.length = 0
  · rw [if_pos hs]
  · rw [if_neg hs]
    exact pySplitAux_no_occurrence _ sep str (by omega)
      hcc

theorem specHeaders_append (H : List Nat) :
    ∀ (acc rest : List Nat),
      (∀ k, k < H.length → bytesContains crlfcrlf (acc ++ H.take k) = false) →
      bytesContains crlfcrlf (acc ++ H) = true →
      specHeaders acc (H ++ rest) = some (acc ++ H, rest) := by
  induction H with
  | nil =>
    intro acc rest _ hfull
    rw [List.append_nil] at hfull
    cases rest with
    | nil => simp [specHeaders, hfull]
    | cons b r => simp [specHeaders, hfull]
  | cons x H ih =>
    intro acc rest hmin hfull
    have hacc : bytesContains crlfcrlf acc = false := by
      have h0 := hmin 0 (by simp)
      simpa using h0
    rw [List.cons_append]
    have hstep : specHeaders acc (x :: (H ++ rest)) = specHeaders (acc ++ [x]) (H ++ rest) := by
      simp [specHeaders, hacc]
    have hmin2 : ∀ k, k < H.length →
        bytesContains crlfcrlf ((acc ++ [x]) ++ H.take k) = false := by
      intro k hk
      have hk1 := hmin (k + 1) (by simp; omega)
      rw [List.take_succ_cons] at hk1
      rw [List.append_assoc]
      simpa using hk1
    have hfull2 : bytesContains crlfcrlf ((acc ++ [x]) ++ H) = true := by
      rw [List.append_assoc]
      simpa using hfull
    rw [hstep, ih (acc ++ [x]) rest hmin2 hfull2, List.append_assoc]
    rfl

theorem bytesContains_crlf_end (l : List Nat) :
    bytesContains crlfcrlf (l ++ crlfcrlf) = true := by
  induction l with
  | nil => decide
  | cons b r ih =>
    rw [List.cons_append, bytesContains_cons, ih]
    simp

theorem crlfcrlf_not_in_partial (l1 : List Nat) (h : ∀ b ∈ l1, b ≠ 13) :
    ∀ t, (t = [] ∨ t = [13] ∨ t = [13, 10] ∨ t = [13, 10, 13]) →
      bytesContains crlfcrlf (l1 ++ t) = false := by
  induction l1 with
  | nil =>
    intro t ht
    rcases ht with rfl | rfl | rfl | rfl <;> decide
  | cons b r ih =>
    intro t ht
    have hb : b ≠ 13 := h b (by simp)
    rw [List.cons_append, bytesContains_cons, Bool.or_eq_false_iff]
    constructor
    · show ([13, 10, 13, 10] : List Nat).isPrefixOf (b :: (r ++ t)) = false
      simp only [List.isPrefixOf, Bool.and_eq_false_iff]
      left
      rw [beq_eq_false_iff_ne]
      exact fun hh => hb hh.symm
    · exact ih (fun x hx => h x (by simp [hx])) t ht

theorem header_take_no_terminator (hb : List Nat) (h13 : ∀ b ∈ hb, b ≠ 13) :
    ∀ k, k < (hb ++ crlfcrlf).length →
      bytesContains crlfcrlf ((hb ++ crlfcrlf).take k) = false := by
  intro k hk
  rw [List.take_append_eq_append_take]
  apply crlfcrlf_not_in_partial
  · intro b hbmem
    exact h13 b (List.take_subset _ _ hbmem)
  · have hd : k - hb.length ≤ 3 := by
      rw [List.length_append] at hk
      have : crlfcrlf.length = 4 := rfl
      omega
    have h4 : crlfcrlf = [13, 10, 13, 10] := rfl
    rw [h4]
    rcases Nat.lt_or_ge k hb.length with hlt | hge
    · rw [Nat.sub_eq_zero_of_le (by omega)]
      left
      rfl
    · have : k - hb.length = 0 ∨ k - hb.length = 1 ∨ k - hb.length = 2
          ∨ k - hb.length = 3 := by omega
      rcases this with he | he | he | he <;> rw [he] <;> simp

theorem readHeaders_frame (hb : List Nat) (h13 : ∀ b ∈ hb, b ≠ 13)
    (rest : List Nat) (s : Chunks) (hs : flat s = (hb ++ crlfcrlf) ++ rest) :
    ∃ s1, readHeaders [] s = some (hb ++ crlfcrlf, s1) ∧ flat s1 = rest := by
  have hspec := readHeaders_spec [] s
  rw [hs] at hspec
  have hfull : bytesContains crlfcrlf (([] : List Nat) ++ (hb ++ crlfcrlf)) = true := by
    simpa using bytesContains_crlf_end hb
  have hmin : ∀ k, k < (hb ++ crlfcrlf).length →
      bytesContains crlfcrlf (([] : List Nat) ++ (hb ++ crlfcrlf).take k) = false := by
    intro k hk
    simpa using header_take_no_terminator hb h13 k hk
  have happ := specHeaders_append (hb ++ crlfcrlf) [] rest hmin hfull
  rw [happ] at hspec
  cases hread : readHeaders [] s with
  | none => rw [hread] at hspec; simp at hspec
  | some p =>
    rw [hread] at hspec
    simp only [Option.map_some', Option.some.injEq, Prod.map, id_eq,
      List.nil_append, Prod.mk.injEq] at hspec
    exact ⟨p.2, by rw [← hspec.1], hspec.2⟩

theorem char_toNat_inj {a b : Char} (h : a.toNat = b.toNat) : a = b :=
  Char.eq_of_val_eq (UInt32.ext h)

theorem char_valid_ranges (c : Char) :
    c.toNat < 55296 ∨ (57344 ≤ c.toNat ∧ c.toNat < 1114112) := by
  have hh : c.toNat = c.val.toNat := rfl
  rcases c.valid with h | ⟨h1, h2⟩
  · left; omega
  · right; omega

theorem isValidChar_toNat (c : Char) : (c.toNat).isValidChar := by
  rcases char_valid_ranges c with h | ⟨h1, h2⟩
  · exact Or.inl h
  · exact Or.inr ⟨by omega, h2⟩

theorem toNat_ofNat_valid {m : Nat} (h : m.isValidChar) : (Char.ofNat m).toNat = m := by
  simp only [Char.ofNat, h, dif_pos, Char.ofNatAux, Char.toNat]
  rfl

theorem ofNat_toNat (c : Char) : Char.ofNat c.toNat = c :=
  char_toNat_inj (toNat_ofNat_valid (isValidChar_toNat c))

theorem utf8EncodeChar_ne_nil (c : Char) : utf8EncodeChar c ≠ [] := by
  simp only [utf8EncodeChar]
  split_ifs <;> simp

theorem utf8Step_encode (c : Char) (X : List Nat) :
    ∃ b t, utf8EncodeChar c = b :: t ∧ utf8Step b (t ++ X) = some (c, X) := by
  by_cases h1 : c.toNat < 128
  · refine ⟨c.toNat, [], by simp [utf8EncodeChar, h1], ?_⟩
    simp [utf8Step, h1, ofNat_toNat]
  · by_cases h2 : c.toNat < 2048
    · have e1 : ¬(192 + c.toNat / 64 < 128) := by omega
      have e2 : ¬(192 + c.toNat / 64 < 192) := by omega
      have e3 : 192 + c.toNat / 64 < 224 := by omega
      have e4 : isCont (128 + c.toNat % 64) = true := by
        simp [isCont]
        omega
      have e5 : 128 ≤ (192 + c.toNat / 64 - 192) * 64 + (128 + c.toNat % 64 - 128) := by
        omega
      have e6 : (192 + c.toNat / 64 - 192) * 64 + (128 + c.toNat % 64 - 128)
          = c.toNat := by
        omega
      refine ⟨192 + c.toNat / 64, [128 + c.toNat % 64],
        by simp [utf8EncodeChar, h1, h2], ?_⟩
      simp only [List.cons_append, List.nil_append, utf8Step, utf8Step2,
        if_neg e1, if_neg e2, if_pos e3, e4, if_true]
      rw [if_pos e5, e6, ofNat_toNat]
    · by_cases h3 : c.toNat < 65536
      · have e1 : ¬(224 + c.toNat / 4096 < 128) := by omega
        have e2 : ¬(224 + c.toNat / 4096 < 192) := by omega
        have e3 : ¬(224 + c.toNat / 4096 < 224) := by omega
        have e4 : 224 + c.toNat / 4096 < 240 := by omega
        have e5 : isCont (128 + c.toNat / 64 % 64) = true := by
          simp [isCont]
          omega
        have e6 : isCont (128 + c.toNat % 64) = true := by
          simp [isCont]
          omega
        have e7 : (224 + c.toNat / 4096 - 224) * 4096
            + (128 + c.toNat / 64 % 64 - 128) * 64 + (128 + c.toNat % 64 - 128)
            = c.toNat := by
          omega
        have e8 : 2048 ≤ c.toNat ∧ ¬(55296 ≤ c.toNat ∧ c.toNat < 57344) := by
          rcases char_valid_ranges c with hv | ⟨hv1, hv2⟩
          · exact ⟨by omega, by omega⟩
          · exact ⟨by omega, by omega⟩
        refine ⟨224 + c.toNat / 4096, [128 + c.toNat / 64 % 64, 128 + c.toNat % 64],
          by simp [utf8EncodeChar, h1, h2, h3], ?_⟩
        simp only [List.cons_append, List.nil_append, utf8Step, utf8Step3,
          if_neg e1, if_neg e2, if_neg e3, if_pos e4, e5, e6, Bool.and_self,
          if_true, e7]
        rw [if_pos e8, ofNat_toNat]
      · have hub : c.toNat < 1114112 := by
          rcases char_valid_ranges c with hv | ⟨hv1, hv2⟩
          · omega
          · omega
        have e1 : ¬(240 + c.toNat / 262144 < 128) := by omega
        have e2 : ¬(240 + c.toNat / 262144 < 192) := by omega
        have e3 : ¬(240 + c.toNat / 262144 < 224) := by omega
        have e4 : ¬(240 + c.toNat / 262144 < 240) := by omega
        have e5 : 240 + c.toNat / 262144 < 245 := by omega
        have e6 : isCont (128 + c.toNat / 4096 % 64) = true := by
          simp [isCont]
          omega
        have e7 : isCont (128 + c.toNat / 64 % 64) = true := by
          simp [isCont]
          omega
        have e8 : isCont (128 + c.toNat % 64) = true := by
          simp [isCont]
          omega
        have e9 : (240 + c.toNat / 262144 - 240) * 262144
            + (128 + c.toNat / 4096 % 64 - 128) * 4096
            + (128 + c.toNat / 64 % 64 - 128) * 64 + (128 + c.toNat % 64 - 128)
            = c.toNat := by
          omega
        have e10 : 65536 ≤ c.toNat ∧ c.toNat ≤ 1114111 := ⟨by omega, by omega⟩
        refine ⟨240 + c.toNat / 262144,
          [128 + c.toNat / 4096 % 64, 128 + c.toNat / 64 % 64, 128 + c.toNat % 64],
          by simp [utf8EncodeChar, h1, h2, h3], ?_⟩
        simp only [List.cons_append, List.nil_append, utf8Step, utf8Step4,
          if_neg e1, if_neg e2, if_neg e3, if_neg e4, if_pos e5, e6, e7, e8,
          Bool.and_self, if_true, e9]
        rw [if_pos e10, ofNat_toNat]

theorem utf8Encode_nil_iff (cs : List Char) : utf8Encode cs = [] ↔ cs = [] := by
  cases cs with
  | nil => simp [utf8Encode]
  | cons c rest =>
    simp only [utf8Encode, List.map_cons, List.flatten_cons, List.append_eq_nil]
    constructor
    · intro ⟨h1, _⟩
      exact absurd h1 (utf8EncodeChar_ne_nil c)
    · intro h
      cases h

theorem utf8DecodeAux_encode (fuel : Nat) :
    ∀ cs : List Char, (utf8Encode cs).length ≤ fuel →
      utf8DecodeAux fuel (utf8Encode cs) = some cs := by
  induction fuel with
  | zero =>
    intro cs h
    have hnil : utf8Encode cs = [] := List.eq_nil_of_length_eq_zero (by omega)
    rw [hnil, (utf8Encode_nil_iff cs).mp hnil]
    rfl
  | succ fuel ih =>
    intro cs h
    cases cs with
    | nil => rfl
    | cons c cs2 =>
      obtain ⟨b, t, hbt, hstep⟩ := utf8Step_encode c (utf8Encode cs2)
      have henc : utf8Encode (c :: cs2) = b :: (t ++ utf8Encode cs2) := by
        simp [utf8Encode]
        rw [show (utf8EncodeChar c) = b :: t from hbt]
        simp [utf8Encode]
      rw [henc]
      have hlen : (utf8Encode cs2).length ≤ fuel := by
        rw [henc] at h
        simp at h
        omega
      simp only [utf8DecodeAux, hstep, ih cs2 hlen]
      rfl

theorem utf8_roundtrip (cs : List Char) : utf8Decode (utf8Encode cs) = some cs :=
  utf8DecodeAux_encode (utf8Encode cs).length cs (Nat.le_refl _)

theorem utf8Encode_ascii_map (cs : List Char) (h : ∀ c ∈ cs, c.toNat < 128) :
    utf8Encode cs = cs.map Char.toNat := by
  induction cs with
  | nil => rfl
  | cons c rest ih =>
    have hc : c.toNat < 128 := h c (by simp)
    have ih2 := ih (fun x hx => h x (by simp [hx]))
    have hstep : utf8EncodeChar c = [c.toNat] := by
      simp [utf8EncodeChar, hc]
    simp only [utf8Encode, List.map_cons, List.flatten_cons] at ih2 ⊢
    rw [hstep, ih2]
    rfl

theorem isDigit_of_bounds {c : Char} (h1 : 48 ≤ c.toNat) (h2 : c.toNat ≤ 57) :
    c.isDigit = true := by
  unfold Char.isDigit
  rw [Bool.and_eq_true, decide_eq_true_eq, decide_eq_true_eq]
  exact ⟨h1, h2⟩

theorem natToCharsAux_digits (n : Nat) :
    ∀ acc, (∀ c ∈ acc, 48 ≤ c.toNat ∧ c.toNat ≤ 57) →
      ∀ c ∈ natToCharsAux n acc, 48 ≤ c.toNat ∧ c.toNat ≤ 57 := by
  induction n using Nat.strong_induction_on with
  | _ n ih =>
    intro acc hacc c hc
    have hd : 48 ≤ (Char.ofNat (48 + n % 10)).toNat
        ∧ (Char.ofNat (48 + n % 10)).toNat ≤ 57 := by
      rw [toNat_ofNat_valid (Or.inl (by omega))]
      omega
    rw [natToCharsAux] at hc
    split_ifs at hc with h
    · rcases List.mem_cons.mp hc with h2 | h2
      · rw [h2]; exact hd
      · exact hacc c h2
    · refine ih (n / 10) (Nat.div_lt_self (by omega) (by omega)) _ ?_ c hc
      intro x hx
      rcases List.mem_cons.mp hx with h2 | h2
      · rw [h2]; exact hd
      · exact hacc x h2

theorem natToCharsAux_ne_nil (n : Nat) : ∀ acc, natToCharsAux n acc ≠ [] := by
  induction n using Nat.strong_induction_on with
  | _ n ih =>
    intro acc
    rw [natToCharsAux]
    split_ifs with h
    · simp
    · exact ih (n / 10) (Nat.div_lt_self (by omega) (by omega)) _

theorem natToCharsAux_append (n : Nat) :
    ∀ acc, natToCharsAux n acc = natToCharsAux n [] ++ acc := by
  induction n using Nat.strong_induction_on with
  | _ n ih =>
    intro acc
    conv_lhs => rw [natToCharsAux]
    conv_rhs => rw [natToCharsAux]
    split_ifs with h
    · rfl
    · have ihn := ih (n / 10) (Nat.div_lt_self (by omega) (by omega))
      rw [ihn (Char.ofNat (48 + n % 10) :: acc), ihn [Char.ofNat (48 + n % 10)],
        List.append_assoc]
      rfl

theorem digits_foldl (n : Nat) :
    (natToCharsAux n []).foldl (fun a c => a * 10 + (c.toNat - 48)) 0 = n := by
  induction n using Nat.strong_induction_on with
  | _ n ih =>
    rw [natToCharsAux]
    split_ifs with h
    · simp only [List.foldl_cons, List.foldl_nil]
      rw [toNat_ofNat_valid (Or.inl (by omega))]
      omega
    · rw [natToCharsAux_append (n / 10) [Char.ofNat (48 + n % 10)],
        List.foldl_append]
      rw [ih (n / 10) (Nat.div_lt_self (by omega) (by omega))]
      simp only [List.foldl_cons, List.foldl_nil]
      rw [toNat_ofNat_valid (Or.inl (by omega))]
      omega

theorem digitsVal_natToChars (n : Nat) :
    digitsVal (natToCharsAux n []) = some n := by
  unfold digitsVal
  rw [if_neg (by simpa using natToCharsAux_ne_nil n []),
    if_pos, digits_foldl]
  rw [List.all_eq_true]
  intro c hc
  have hd := natToCharsAux_digits n [] (by simp) c hc
  exact isDigit_of_bounds hd.1 hd.2

theorem awaitResponse_eq (command : String) (stream : List Json)
    (hobj : ∀ m ∈ stream, m.isObj = true) :
    awaitResponse command stream =
      (match stream.dropWhile (fun m => !isMatchingResponse command m) with
       | [] => (SendOutcome.hang, ([] : List Json))
       | m :: rest => (SendOutcome.response m, rest)) := by
  induction stream with
  | nil => rfl
  | cons m rest ih =>
    have hm : m.isObj = true := hobj m (by simp)
    by_cases hmatch : isMatchingResponse command m
    · simp [awaitResponse, hm, hmatch, List.dropWhile_cons]
    · have ih2 := ih (fun x hx => hobj x (by simp [hx]))
      simp [awaitResponse, hm, hmatch, List.dropWhile_cons, ih2]

theorem waitForEvent_eq (name : String) (stream : List Json)
    (hobj : ∀ m ∈ stream, m.isObj = true) :
    waitForEvent name stream =
      (match stream.dropWhile (fun m => !isNamedEvent name m) with
       | [] => none
       | m :: rest => some (m, rest)) := by
  induction stream with
  | nil => rfl
  | cons m rest ih =>
    have hm : m.isObj = true := hobj m (by simp)
    by_cases hmatch : isNamedEvent name m
    · simp [waitForEvent, hm, hmatch, List.dropWhile_cons]
    · have ih2 := ih (fun x hx => hobj x (by simp [hx]))
      simp [waitForEvent, hm, hmatch, List.dropWhile_cons, ih2]

/-- C1: for every call to send_request with command c and
wait_for_response = true, the message returned is the first message read
from the stream whose type field equals "response" and whose command
field equals c (a hang when no such message ever arrives); every earlier
message read, events included, is discarded and is never returned, the
unread stream resuming right after the matching response. -/
theorem send_request_returns_first_matching_response
    (st : DAPClient) (stream : List Json) (command : String)
    (arguments : Option Json)
    (hobj : ∀ m ∈ stream, m.isObj = true) :
    (sendRequest st stream command arguments true).outcome =
      (match stream.dropWhile (fun m => !isMatchingResponse command m) with
       | [] => SendOutcome.hang
       | m :: _ => SendOutcome.response m)
    ∧ (sendRequest st stream command arguments true).stream =
      (stream.dropWhile (fun m => !isMatchingResponse command m)).tail := by
  have h := awaitResponse_eq command stream hobj
  constructor
  · show (awaitResponse command stream).1 = _
    rw [h]
    cases stream.dropWhile (fun m => !isMatchingResponse command m) <;> rfl
  · show (awaitResponse command stream).2 = _
    rw [h]
    cases stream.dropWhile (fun m => !isMatchingResponse command m) <;> rfl

/-- Witness for C1 at a concrete stream: an interleaved output event is
discarded and the first initialize response is returned, with the stream
resuming after it. -/
theorem send_request_returns_first_matching_response_witness :
    (sendRequest DAPClient.init
        [Json.obj [("seq", .num 5), ("type", .str "event"),
                   ("event", .str "output"), ("body", .obj [])],
         Json.obj [("seq", .num 6), ("type", .str "response"),
                   ("command", .str "initialize"), ("request_seq", .num 1),
                   ("success", .bool true), ("body", .obj [])]]
        "initialize" none true).outcome =
      SendOutcome.response
        (Json.obj [("seq", .num 6), ("type", .str "response"),
                   ("command", .str "initialize"), ("request_seq", .num 1),
                   ("success", .bool true), ("body", .obj [])]) :=
  ((send_request_returns_first_matching_response DAPClient.init _ "initialize"
      none (by decide)).1).trans rfl

/-- C7: the inline wait loops for the initialized and stopped events read
messages until the first message whose type field equals "event" and
whose event field equals the awaited name, return that event message
(whose body the caller then reads), and discard every other message
observed while waiting. -/
theorem wait_for_event_returns_first_named_event
    (name : String) (stream : List Json)
    (hobj : ∀ m ∈ stream, m.isObj = true) :
    waitForEvent name stream =
      (match stream.dropWhile (fun m => !isNamedEvent name m) with
       | [] => none
       | m :: rest => some (m, rest)) :=
  waitForEvent_eq name stream hobj

/-- Witness for C7 at a concrete stream: a response and an unrelated
event are discarded and the first initialized event is returned. -/
theorem wait_for_event_returns_first_named_event_witness :
    waitForEvent "initialized"
        [Json.obj [("seq", .num 2), ("type", .str "response"),
                   ("command", .str "attach"), ("body", .obj [])],
         Json.obj [("seq", .num 3), ("type", .str "event"),
                   ("event", .str "output"), ("body", .obj [])],
         Json.obj [("seq", .num 4), ("type", .str "event"),
                   ("event", .str "initialized"), ("body", .obj [])]] =
      some
        (Json.obj [("seq", .num 4), ("type", .str "event"),
                   ("event", .str "initialized"), ("body", .obj [])],
         []) :=
  (wait_for_event_returns_first_named_event "initialized" _ (by decide)).trans rfl

/-- C9: a send_request call with wait_for_response = false returns None
immediately after writing the framed request: no message is read, the
stream is exactly as before. -/
theorem send_request_no_wait_reads_nothing
    (st : DAPClient) (stream : List Json) (command : String)
    (arguments : Option Json) :
    (sendRequest st stream command arguments false).outcome = SendOutcome.noWait
    ∧ (sendRequest st stream command arguments false).stream = stream :=
  ⟨rfl, rfl⟩

/-- C10: every send_request call, whatever its command, arguments and
wait flag, changes only the seq field of the client, by exactly one;
debug_port and the socket reference are untouched. -/
theorem send_request_frame_effect
    (st : DAPClient) (stream : List Json) (command : String)
    (arguments : Option Json) (wait_for_response : Bool) :
    (sendRequest st stream command arguments wait_for_response).client.debug_port
        = st.debug_port
    ∧ (sendRequest st stream command arguments wait_for_response).client.socket
        = st.socket
    ∧ (sendRequest st stream command arguments wait_for_response).client.seq
        = st.seq + 1 := by
  cases wait_for_response <;> exact ⟨rfl, rfl, rfl⟩

/-- C8: set_breakpoints(p, ls) sends exactly one setBreakpoints request:
its arguments.source.path is the absolute form of p and its
arguments.breakpoints lists one line record per element of ls in the same
order. -/
theorem set_breakpoints_request
    (abspath : String → String) (st : DAPClient) (stream : List Json)
    (file_path : String) (lines : List Int) :
    (set_breakpoints abspath st stream file_path lines).request =
      Json.obj
        [("seq", .num st.seq), ("type", .str "request"),
         ("command", .str "setBreakpoints"),
         ("arguments",
          .obj [("source", .obj [("path", .str (abspath file_path))]),
                ("breakpoints",
                 .arr (lines.map (fun line => .obj [("line", .num line)])))])]
    ∧ (set_breakpoints abspath st stream file_path lines).wire =
      frameText (pyDumps
        (set_breakpoints abspath st stream file_path lines).request) :=
  ⟨rfl, rfl⟩

theorem sendRequest_client (st : DAPClient) (stream : List Json)
    (command : String) (arguments : Option Json) (w : Bool) :
    (sendRequest st stream command arguments w).client = { st with seq := st.seq + 1 } := by
  cases w <;> rfl

theorem sendRequest_request (st : DAPClient) (stream : List Json)
    (command : String) (arguments : Option Json) (w : Bool) :
    (sendRequest st stream command arguments w).request =
      buildRequest st.seq command arguments := by
  cases w <;> rfl

theorem buildRequest_get_seq (q : Int) (command : String) (arguments : Option Json) :
    (buildRequest q command arguments).get "seq" = some (.num q) := rfl

theorem sendAll_seq_map (st : DAPClient) (stream : List Json) (calls : List SendCall) :
    (sendAll st stream calls).map (fun r => r.get "seq") =
      (List.range (sendAll st stream calls).length).map
        (fun i : Nat => some (Json.num (st.seq + (i : Int)))) := by
  induction calls generalizing st stream with
  | nil => rfl
  | cons c rest ih =>
    simp only [sendAll]
    have hreq : (sendRequest st stream c.command c.arguments c.wait).request.get "seq"
        = some (.num st.seq) := by
      rw [sendRequest_request]; rfl
    have hcl : (sendRequest st stream c.command c.arguments c.wait).client.seq
        = st.seq + 1 := by
      rw [sendRequest_client]
    cases ho : (sendRequest st stream c.command c.arguments c.wait).outcome with
    | hang => simp [hreq, List.range_succ]
    | attrError => simp [hreq, List.range_succ]
    | noWait =>
      have ih2 := ih (sendRequest st stream c.command c.arguments c.wait).client
        (sendRequest st stream c.command c.arguments c.wait).stream
      simp only [List.map_cons, List.length_cons, ih2, hreq, hcl,
        List.range_succ_eq_map, List.map_map]
      congr 1
      · simp
      · exact List.map_congr_left (fun i _ => by
          simp only [Function.comp_apply]
          congr 1
          congr 1
          push_cast
          omega)
    | response r =>
      have ih2 := ih (sendRequest st stream c.command c.arguments c.wait).client
        (sendRequest st stream c.command c.arguments c.wait).stream
      simp only [List.map_cons, List.length_cons, ih2, hreq, hcl,
        List.range_succ_eq_map, List.map_map]
      congr 1
      · simp
      · exact List.map_congr_left (fun i _ => by
          simp only [Function.comp_apply]
          congr 1
          congr 1
          push_cast
          omega)

/-- C2: within one session the seq values of successive outgoing requests
are the strictly increasing integers 1, 2, 3, ... whatever each call's
wait flag was: the counter advances on every send_request call, so the
n-th request sent carries seq = n. -/
theorem seq_values_strictly_increasing_from_one
    (stream : List Json) (calls : List SendCall) :
    (sendAll DAPClient.init stream calls).map (fun r => r.get "seq") =
      (List.range (sendAll DAPClient.init stream calls).length).map
        (fun i : Nat => some (Json.num ((i : Int) + 1))) := by
  rw [sendAll_seq_map DAPClient.init stream calls]
  exact List.map_congr_left (fun i _ => by
    show some (Json.num (1 + (i : Int))) = some (Json.num ((i : Int) + 1))
    rw [Int.add_comm])

theorem toNat_ofNat_of_lt {m : Nat} (h : m < 55296) : (Char.ofNat m).toNat = m := by
  have hv : m.isValidChar := Or.inl h
  simp only [Char.ofNat, hv, dif_pos, Char.ofNatAux, Char.toNat]
  rfl

/-- A string all of whose characters are ASCII: for such a string the
UTF-8 byte count equals the character count. -/
abbrev AsciiList (l : List Char) : Prop := ∀ c ∈ l, c.toNat < 128

theorem ascii_nil : AsciiList [] := by decide

theorem ascii_cons {c0 : Char} {l : List Char} (h0 : c0.toNat < 128)
    (h : AsciiList l) : AsciiList (c0 :: l) := by
  intro c hc
  rcases List.mem_cons.mp hc with h2 | h2
  · rw [h2]; exact h0
  · exact h c h2

theorem ascii_append {l1 l2 : List Char} (h1 : AsciiList l1)
    (h2 : AsciiList l2) : AsciiList (l1 ++ l2) := by
  intro c hc
  rcases List.mem_append.mp hc with h | h
  · exact h1 c h
  · exact h2 c h

theorem hexDigit_ascii_of_lt {n : Nat} (h : n < 16) : (hexDigit n).toNat < 128 := by
  unfold hexDigit
  split
  · rw [toNat_ofNat_of_lt (by omega)]; omega
  · rw [toNat_ofNat_of_lt (by omega)]; omega

theorem hex4_ascii (n : Nat) : AsciiList (hex4 n) := by
  unfold hex4
  refine ascii_cons ?_ (ascii_cons ?_ (ascii_cons ?_ (ascii_cons ?_ ascii_nil))) <;>
    exact hexDigit_ascii_of_lt (Nat.mod_lt _ (by omega))

theorem escapeChar_ascii (c : Char) : AsciiList (escapeChar c) := by
  unfold escapeChar
  split_ifs with h1 h2 h3 h4 h5 h6 h7 h8 h9
  · decide
  · decide
  · decide
  · decide
  · decide
  · decide
  · decide
  · intro x hx
    rw [List.mem_singleton.mp hx]
    omega
  · exact ascii_cons (by decide) (ascii_cons (by decide) (hex4_ascii _))
  · exact ascii_append
      (ascii_cons (by decide) (ascii_cons (by decide) (hex4_ascii _)))
      (ascii_cons (by decide) (ascii_cons (by decide) (hex4_ascii _)))

theorem escapeChars_ascii (cs : List Char) : AsciiList (escapeChars cs) := by
  intro x hx
  simp only [escapeChars, List.mem_flatten, List.mem_map] at hx
  obtain ⟨l, ⟨c, _, hl⟩, hxl⟩ := hx
  exact escapeChar_ascii c x (hl ▸ hxl)

theorem natToCharsAux_ascii (n : Nat) :
    ∀ acc, AsciiList acc → AsciiList (natToCharsAux n acc) := by
  induction n using Nat.strong_induction_on with
  | _ n ih =>
    intro acc hacc
    have hd : (Char.ofNat (48 + n % 10)).toNat < 128 := by
      rw [toNat_ofNat_of_lt (by omega)]
      omega
    rw [natToCharsAux]
    split_ifs with h
    · exact ascii_cons hd hacc
    · exact ih (n / 10) (Nat.div_lt_self (by omega) (by omega)) _ (ascii_cons hd hacc)

theorem intToChars_ascii (i : Int) : AsciiList (intToChars i) := by
  unfold intToChars
  split_ifs
  · exact ascii_cons (by decide) (natToCharsAux_ascii _ [] ascii_nil)
  · exact natToCharsAux_ascii _ [] ascii_nil

theorem pyDumps_ascii : ∀ j : Json, AsciiList (pyDumps j) := by
  refine pyDumps.induct (fun j => AsciiList (pyDumps j))
    (fun kvs => AsciiList (dumpObj kvs))
    (fun xs => AsciiList (dumpList xs))
    ?_ ?_ ?_ ?_ ?_ ?_ ?_ ?_ ?_ ?_ ?_ ?_ ?_
  · simp only [pyDumps]; decide
  · simp only [pyDumps]; decide
  · intro b hb
    cases b with
    | false => simp only [pyDumps]; decide
    | true => exact absurd rfl hb
  · intro n
    simp only [pyDumps]
    exact intToChars_ascii n
  · intro s
    simp only [pyDumps]
    exact ascii_cons (by decide) (ascii_append (escapeChars_ascii _) (by decide))
  · intro xs ih
    simp only [pyDumps]
    exact ascii_cons (by decide) (ascii_append ih (by decide))
  · intro kvs ih
    simp only [pyDumps]
    exact ascii_cons (by decide) (ascii_append ih (by decide))
  · simp only [dumpList]
    exact ascii_nil
  · intro x ih
    simpa only [dumpList] using ih
  · intro x y rest ih1 ih2
    simp only [dumpList]
    exact ascii_append ih1 (ascii_cons (by decide) (ascii_cons (by decide) ih2))
  · simp only [dumpObj]
    exact ascii_nil
  · intro k v ih
    simp only [dumpObj]
    exact ascii_cons (by decide) (ascii_append (escapeChars_ascii _)
      (ascii_cons (by decide) (ascii_cons (by decide) (ascii_cons (by decide) ih))))
  · intro k v kv rest ih1 ih2
    simp only [dumpObj]
    exact ascii_append
      (ascii_cons (by decide) (ascii_append (escapeChars_ascii _)
        (ascii_cons (by decide) (ascii_cons (by decide) (ascii_cons (by decide) ih1)))))
      (ascii_cons (by decide) (ascii_cons (by decide) ih2))

theorem utf8EncodeChar_length_ascii {c : Char} (h : c.toNat < 128) :
    (utf8EncodeChar c).length = 1 := by
  simp [utf8EncodeChar, h]

theorem utf8Encode_length_ascii (cs : List Char)
    (h : AsciiList cs) : (utf8Encode cs).length = cs.length := by
  induction cs with
  | nil => rfl
  | cons c rest ih =>
    have hc : (utf8EncodeChar c).length = 1 :=
      utf8EncodeChar_length_ascii (h c (by simp))
    have ih2 := ih (fun x hx => h x (by simp [hx]))
    unfold utf8Encode at ih2 ⊢
    rw [List.map_cons, List.flatten_cons, List.length_append, hc, List.length_cons]
    omega

/-- C5 (amended): the Content-Length value in the frame header is exactly
len(message.encode("utf-8")), the UTF-8 byte length of the JSON-serialized
request body; but json.dumps escapes every non-ASCII character by default
(ensure_ascii), so the serialized body is always pure ASCII and its byte
length always equals its character count — the two never differ, even when
an argument string holds a multi-byte emoji. -/
theorem content_length_is_utf8_byte_length
    (st : DAPClient) (stream : List Json) (command : String)
    (arguments : Option Json) (w : Bool) :
    (sendRequest st stream command arguments w).wire =
      "Content-Length: ".data
        ++ intToChars
          (((utf8Encode (pyDumps (buildRequest st.seq command arguments))).length : Int))
        ++ [Char.ofNat 13, Char.ofNat 10, Char.ofNat 13, Char.ofNat 10]
        ++ pyDumps (buildRequest st.seq command arguments)
    ∧ AsciiList (pyDumps (buildRequest st.seq command arguments))
    ∧ (utf8Encode (pyDumps (buildRequest st.seq command arguments))).length
        = (pyDumps (buildRequest st.seq command arguments)).length := by
  refine ⟨?_, pyDumps_ascii _, utf8Encode_length_ascii _ (pyDumps_ascii _)⟩
  cases w <;> rfl

/-- C5 counterexample: at the specification's own example — an attach
request whose argument string is the 4-byte emoji U+1F31F — json.dumps
escapes the emoji to the twelve ASCII characters of a surrogate pair, so
the serialized body (89 characters) contains no multi-byte character at
all and its UTF-8 byte count equals its character count instead of
differing from it. -/
theorem content_length_multibyte_counterexample :
    (utf8Encode (pyDumps (buildRequest 2 "attach"
        (some (.obj [("note", .str "🌟")]))))).length
      = (pyDumps (buildRequest 2 "attach"
          (some (.obj [("note", .str "🌟")])))).length
    ∧ AsciiList (pyDumps (buildRequest 2 "attach"
        (some (.obj [("note", .str "🌟")]))))
    ∧ (pyDumps (buildRequest 2 "attach"
        (some (.obj [("note", .str "🌟")])))).length = 89 := by
  refine ⟨utf8Encode_length_ascii _ (pyDumps_ascii _), pyDumps_ascii _, ?_⟩
  simp [buildRequest, pyOrEmptyDict, Json.truthy, pyDumps, dumpObj, dumpList,
    escapeChars, escapeChar, intToChars, natToCharsAux, hex4, hexDigit]

theorem runSteps_no_hit (j : Nat) (k : ExnKind) (l : List Nat)
    (h : ∀ i ∈ l, i ≠ j) :
    ∀ st, runSteps (some (j, k)) l st = runSteps none l st := by
  induction l with
  | nil => intro st; rfl
  | cons i rest ih =>
    intro st
    have hij : i ≠ j := h i (by simp)
    simp only [runSteps, if_neg hij]
    exact ih (fun x hx => h x (by simp [hx])) _

theorem takeWhile_no_hit (j : Nat) (l : List Nat) (h : ∀ i ∈ l, i ≠ j) :
    l.takeWhile (fun i => decide (i ≠ j)) = l := by
  induction l with
  | nil => rfl
  | cons i rest ih =>
    have hij : i ≠ j := h i (by simp)
    have hd : decide (i ≠ j) = true := decide_eq_true hij
    have hrest : ∀ x ∈ rest, x ≠ j := fun x hx => h x (List.mem_cons_of_mem _ hx)
    rw [List.takeWhile_cons, hd, if_pos rfl, ih hrest]

theorem socketOpened_pos (j : Nat) (k : ExnKind) (h : j ≠ 0) :
    socketOpened (some (j, k)) = true := by
  cases j with
  | zero => exact absurd rfl h
  | succ n => rfl

/-- C6: on every exit path of start_debug_session — normal completion, or
an exception (Exception or BaseException) raised at any handshake step
after the debuggee was spawned — the finally teardown runs: the socket is
closed exactly once when one was opened (and never otherwise), and the
debuggee process is terminated exactly once and reaped exactly once, with
the teardown events following every handshake event. -/
theorem teardown_runs_on_every_exit_path (failAt : Option (Nat × ExnKind)) :
    (start_debug_session failAt).1.trace
      = stepsRun failAt ++ teardownEvents (socketOpened failAt)
    ∧ (start_debug_session failAt).1.trace.count Ev.procTerminate = 1
    ∧ (start_debug_session failAt).1.trace.count Ev.procWait = 1
    ∧ (start_debug_session failAt).1.trace.count Ev.sockClose
        = (if socketOpened failAt then 1 else 0) := by
  rcases failAt with _ | ⟨j, k⟩
  · refine ⟨by decide, by decide, by decide, by decide⟩
  · by_cases hj : j < handshakeStepCount
    · unfold handshakeStepCount at hj
      interval_cases j <;> cases k <;> exact ⟨by decide, by decide, by decide, by decide⟩
    · have hj0 : j ≠ 0 := by unfold handshakeStepCount at hj; omega
      have hnh : ∀ i ∈ List.range handshakeStepCount, i ≠ j := by
        intro i hi
        rw [List.mem_range] at hi
        omega
      have h1 : start_debug_session (some (j, k)) = start_debug_session none := by
        unfold start_debug_session pyTryExceptFinally
        rw [runSteps_no_hit j k _ hnh]
      have h2 : stepsRun (some (j, k)) = stepsRun none := by
        show (List.map Ev.step
            ((List.range handshakeStepCount).takeWhile (fun i => decide (i ≠ j))))
          = List.map Ev.step (List.range handshakeStepCount)
        rw [takeWhile_no_hit j _ hnh]
      rw [h1, h2, socketOpened_pos j k hj0]
      refine ⟨by decide, by decide, by decide, by decide⟩


theorem dropWhile_eq_self_of_all {p : Char → Bool} (l : List Char)
    (h : ∀ c ∈ l, p c = false) : l.dropWhile p = l := by
  cases l with
  | nil => rfl
  | cons c r =>
    rw [List.dropWhile_cons, h c (by simp)]
    simp

theorem isPyWS_digit_false {c : Char} (h1 : 48 ≤ c.toNat) (h2 : c.toNat ≤ 57) :
    isPyWS c = false := by
  have hsp : ¬(c = ' ') := by
    intro he
    rw [he] at h1
    exact absurd h1 (by decide)
  simp only [isPyWS, Bool.or_eq_false_iff, decide_eq_false_iff_not]
  exact ⟨⟨⟨⟨⟨hsp, by omega⟩, by omega⟩, by omega⟩, by omega⟩, by omega⟩

theorem pyInt_natToChars (m : Nat) : pyInt (natToCharsAux m []) = some (m : Int) := by
  have hds := natToCharsAux_digits m [] (by simp)
  have hws : ∀ c ∈ natToCharsAux m [], isPyWS c = false := fun c hc =>
    isPyWS_digit_false (hds c hc).1 (hds c hc).2
  have hd1 : (natToCharsAux m []).dropWhile isPyWS = natToCharsAux m [] :=
    dropWhile_eq_self_of_all _ hws
  have hd2 : (natToCharsAux m []).reverse.dropWhile isPyWS
      = (natToCharsAux m []).reverse :=
    dropWhile_eq_self_of_all _ (fun c hc => hws c (List.mem_reverse.mp hc))
  unfold pyInt
  rw [hd1, hd2, List.reverse_reverse]
  cases hD : natToCharsAux m [] with
  | nil => exact absurd hD (natToCharsAux_ne_nil m [])
  | cons d rest =>
    have hd48 : 48 ≤ d.toNat ∧ d.toNat ≤ 57 := hds d (by rw [hD]; simp)
    have hdm : d ≠ Char.ofNat 45 := by
      intro he
      rw [he, toNat_ofNat_valid (Or.inl (by omega))] at hd48
      omega
    have hdp : d ≠ Char.ofNat 43 := by
      intro he
      rw [he, toNat_ofNat_valid (Or.inl (by omega))] at hd48
      omega
    dsimp only []
    split
    · rename_i t ds heq
      injection heq with h1 h2
      exact absurd (h1.trans (by decide)) hdm
    · rename_i t ds heq
      injection heq with h1 h2
      exact absurd (h1.trans (by decide)) hdp
    · rw [← hD, digitsVal_natToChars]
      simp

theorem specBody_exact (enc tl : List Nat) :
    specBody [] ((enc.length : Int)) (enc ++ tl) = some (enc, tl) := by
  rcases Nat.eq_zero_or_pos enc.length with h0 | hpos
  · have he : enc = [] := List.length_eq_zero.mp h0
    subst he
    simp [specBody]
  · have hne : enc ≠ [] := by
      intro he
      rw [he] at hpos
      simp at hpos
    obtain ⟨b, r, henc⟩ := List.exists_cons_of_ne_nil hne
    subst henc
    unfold specBody
    rw [if_pos (by simp)]
    rw [if_neg (by simp)]
    dsimp only []
    have hneed : ((((b :: r).length : Nat) : Int) - (([] : List Nat).length : Int)).toNat
        = (b :: r).length := by simp
    rw [hneed]
    rw [if_neg (by rw [List.length_append]; omega)]
    rw [List.nil_append, List.take_left, List.drop_left]

theorem intToChars_ofNat (m : Nat) : intToChars ((m : Int)) = natToCharsAux m [] := by
  unfold intToChars
  rw [if_neg (by omega)]
  simp


theorem utf8Encode_append (a b : List Char) :
    utf8Encode (a ++ b) = utf8Encode a ++ utf8Encode b := by
  simp [utf8Encode]

theorem charsContains_head_missing (c0 : Char) (ss l : List Char)
    (h : ∀ c ∈ l, c ≠ c0) : charsContains (c0 :: ss) l = false := by
  induction l with
  | nil => rfl
  | cons c r ih =>
    rw [charsContains_cons, Bool.or_eq_false_iff]
    refine ⟨?_, ih (fun x hx => h x (by simp [hx]))⟩
    show (c0 :: ss).isPrefixOf (c :: r) = false
    simp only [List.isPrefixOf, Bool.and_eq_false_iff]
    left
    rw [beq_eq_false_iff_ne]
    exact fun he => (h c (by simp)) he.symm

theorem specBody_short (m : Nat) (pb : List Nat) (h : pb.length < m) :
    specBody [] ((m : Int)) pb = none := by
  unfold specBody
  rw [if_pos (by simp; omega)]
  by_cases hpe : pb.isEmpty = true
  · rw [if_pos hpe]
  · rw [if_neg hpe]
    dsimp only []
    rw [if_pos (by simp; omega)]

theorem read_response_header_stage (m : Nat) (rest : List Nat) (s : Chunks)
    (hs : flat s
      = utf8Encode ("Content-Length: ".data ++ intToChars ((m : Int)))
        ++ crlfcrlf ++ rest) :
    ∃ s1, flat s1 = rest ∧ read_response s = bodyStage ((m : Int)) s1 := by
  have hB : intToChars ((m : Int)) = natToCharsAux m [] := intToChars_ofNat m
  have hdig := natToCharsAux_digits m [] (by simp)
  have hascii : ∀ c ∈ "Content-Length: ".data ++ intToChars ((m : Int)),
      c.toNat < 128 := by
    intro c hc
    rcases List.mem_append.mp hc with h | h
    · exact (by decide : ∀ c ∈ "Content-Length: ".data, c.toNat < 128) c h
    · rw [hB] at h
      have := hdig c h
      omega
  have h13 : ∀ b ∈ utf8Encode ("Content-Length: ".data ++ intToChars ((m : Int))),
      b ≠ 13 := by
    rw [utf8Encode_ascii_map _ hascii]
    intro b hb
    obtain ⟨c, hc, rfl⟩ := List.mem_map.mp hb
    rcases List.mem_append.mp hc with h | h
    · exact (by decide : ∀ c ∈ "Content-Length: ".data, c.toNat ≠ 13) c h
    · rw [hB] at h
      have := hdig c h
      omega
  obtain ⟨s1, hread, hs1⟩ := readHeaders_frame _ h13 rest s hs
  refine ⟨s1, hs1, ?_⟩
  have hdec : utf8Decode
      (utf8Encode ("Content-Length: ".data ++ intToChars ((m : Int))) ++ crlfcrlf)
      = some (("Content-Length: ".data ++ intToChars ((m : Int)))
          ++ [Char.ofNat 13, Char.ofNat 10, Char.ofNat 13, Char.ofNat 10]) := by
    rw [show (crlfcrlf : List Nat)
        = utf8Encode [Char.ofNat 13, Char.ofNat 10, Char.ofNat 13, Char.ofNat 10]
        from rfl,
      ← utf8Encode_append]
    exact utf8_roundtrip _
  have hnotC : ∀ c ∈ intToChars ((m : Int))
      ++ [Char.ofNat 13, Char.ofNat 10, Char.ofNat 13, Char.ofNat 10], c ≠ 'C' := by
    intro c hc he
    rcases List.mem_append.mp hc with h | h
    · rw [hB] at h
      have hr := hdig c h
      rw [he] at hr
      have : (67 : Nat) ≤ 57 := le_trans (le_of_eq (by decide)) hr.2
      omega
    · fin_cases h <;> exact absurd he (by decide)
  have hcc : charsContains "Content-Length: ".data
      (intToChars ((m : Int))
        ++ [Char.ofNat 13, Char.ofNat 10, Char.ofNat 13, Char.ofNat 10]) = false := by
    have hAcons : "Content-Length: ".data = 'C' :: "ontent-Length: ".data := rfl
    rw [hAcons]
    exact charsContains_head_missing 'C' _ _ hnotC
  have hBnot13 : ∀ c ∈ intToChars ((m : Int)), c ≠ Char.ofNat 13 := by
    intro c hc he
    rw [hB] at hc
    have hr := hdig c hc
    rw [he, toNat_ofNat_valid (Or.inl (by omega))] at hr
    omega
  have hsplit2 : pySplit [Char.ofNat 13, Char.ofNat 10]
      (intToChars ((m : Int))
        ++ [Char.ofNat 13, Char.ofNat 10, Char.ofNat 13, Char.ofNat 10])
      = intToChars ((m : Int))
          :: pySplit [Char.ofNat 13, Char.ofNat 10] [Char.ofNat 13, Char.ofNat 10] := by
    have h4 : ([Char.ofNat 13, Char.ofNat 10, Char.ofNat 13, Char.ofNat 10] : List Char)
        = [Char.ofNat 13, Char.ofNat 10] ++ [Char.ofNat 13, Char.ofNat 10] := rfl
    rw [h4, ← List.append_assoc]
    exact pySplit_through (Char.ofNat 13) [Char.ofNat 10] _ _ hBnot13
  have hpy : pyInt (intToChars ((m : Int))) = some ((m : Int)) := by
    rw [hB]
    exact pyInt_natToChars m
  unfold read_response
  rw [hread]
  dsimp only []
  rw [hdec]
  dsimp only []
  rw [List.append_assoc, pySplit_def_prefix _ _ (by decide),
    pySplit_no_occurrence _ _ hcc]
  dsimp only [List.get?]
  rw [hsplit2]
  dsimp only [List.headD]
  rw [hpy]
  dsimp only []
  unfold bodyStage
  rfl

theorem read_response_frame (msg : List Char) (tl : List Nat) (s : Chunks)
    (hs : flat s = utf8Encode (frameText msg) ++ tl) :
    ∃ s2, flat s2 = tl ∧
      read_response s = (match json_loads msg with
        | none => ReadOutcome.exc PyExc.jsonDecodeError
        | some j => ReadOutcome.ok j s2) := by
  have hfr : utf8Encode (frameText msg)
      = utf8Encode ("Content-Length: ".data
          ++ intToChars (((utf8Encode msg).length : Int)))
        ++ crlfcrlf ++ utf8Encode msg := by
    unfold frameText
    rw [utf8Encode_append, utf8Encode_append]
    rfl
  have hs2 : flat s
      = utf8Encode ("Content-Length: ".data
          ++ intToChars (((utf8Encode msg).length : Int)))
        ++ crlfcrlf ++ (utf8Encode msg ++ tl) := by
    rw [hs, hfr, List.append_assoc, List.append_assoc]
  obtain ⟨s1, hs1, hrr⟩ :=
    read_response_header_stage (utf8Encode msg).length (utf8Encode msg ++ tl) s hs2
  have hspec : (readBody [] (((utf8Encode msg).length : Int)) s1).map (Prod.map id flat)
      = some (utf8Encode msg, tl) := by
    rw [readBody_spec, hs1]
    exact specBody_exact _ _
  cases hrb : readBody [] (((utf8Encode msg).length : Int)) s1 with
  | none => rw [hrb] at hspec; simp at hspec
  | some p =>
    obtain ⟨body, s2⟩ := p
    rw [hrb] at hspec
    simp only [Option.map_some', Option.some.injEq, Prod.map, id_eq,
      Prod.mk.injEq] at hspec
    refine ⟨s2, hspec.2, ?_⟩
    rw [hrr]
    unfold bodyStage
    rw [hrb]
    dsimp only []
    rw [hspec.1, utf8_roundtrip]

theorem read_response_truncated (m : Nat) (pb : List Nat) (s : Chunks)
    (hs : flat s = utf8Encode ("Content-Length: ".data ++ intToChars ((m : Int)))
        ++ crlfcrlf ++ pb)
    (hlt : pb.length < m) : read_response s = ReadOutcome.hang := by
  obtain ⟨s1, hs1, hrr⟩ := read_response_header_stage m pb s hs
  have hspec : (readBody [] ((m : Int)) s1).map (Prod.map id flat) = none := by
    rw [readBody_spec, hs1]
    exact specBody_short m pb hlt
  cases hrb : readBody [] ((m : Int)) s1 with
  | some p => rw [hrb] at hspec; simp at hspec
  | none =>
    rw [hrr]
    unfold bodyStage
    rw [hrb]

theorem read_response_no_terminator (s : Chunks)
    (h : bytesContains crlfcrlf (flat s) = false) :
    read_response s = ReadOutcome.hang := by
  have hnone := readHeadersAux_no_terminator ((flat s).length + 1) [] s
    (by simpa using h)
  unfold read_response readHeaders
  rw [hnone]

theorem read_response_missing_cl (hb : List Nat) (hchars : List Char) (s : Chunks)
    (hs : flat s = hb ++ crlfcrlf) (h13 : ∀ b ∈ hb, b ≠ 13)
    (hdec : utf8Decode (hb ++ crlfcrlf) = some hchars)
    (hcc : charsContains "Content-Length: ".data hchars = false) :
    read_response s = ReadOutcome.exc PyExc.indexError := by
  obtain ⟨s1, hread, hs1⟩ := readHeaders_frame hb h13 [] s (by rw [hs, List.append_nil])
  unfold read_response
  rw [hread]
  dsimp only []
  rw [hdec]
  dsimp only []
  rw [pySplit_no_occurrence _ _ hcc]
  rfl


/-- C3 (amended): read_response's real failure taxonomy. (a) When the
received header block lacks a Content-Length field the str.split access
[1] raises an IndexError, not a ProtocolError. (b) When the body bytes of
a well-framed message fail to parse as JSON, json.loads raises a
JSONDecodeError, not a ProtocolError. (c) When the stream closes before
the header terminator has arrived, or before the announced number of body
bytes has arrived, read_response does not raise a ConnectionError: it
loops forever on recv, which returns empty bytes from a closed socket. -/
theorem read_response_error_taxonomy :
    (∀ (s : Chunks) (hb : List Nat) (hchars : List Char),
        flat s = hb ++ crlfcrlf → (∀ b ∈ hb, b ≠ 13) →
        utf8Decode (hb ++ crlfcrlf) = some hchars →
        charsContains "Content-Length: ".data hchars = false →
        read_response s = ReadOutcome.exc PyExc.indexError
          ∧ read_response s ≠ ReadOutcome.exc PyExc.protocolError)
    ∧ (∀ (msg : List Char) (tl : List Nat) (s : Chunks),
        flat s = utf8Encode (frameText msg) ++ tl → json_loads msg = none →
        read_response s = ReadOutcome.exc PyExc.jsonDecodeError
          ∧ read_response s ≠ ReadOutcome.exc PyExc.protocolError)
    ∧ (∀ s : Chunks, bytesContains crlfcrlf (flat s) = false →
        read_response s = ReadOutcome.hang
          ∧ read_response s ≠ ReadOutcome.exc PyExc.connectionError)
    ∧ (∀ (m : Nat) (pb : List Nat) (s : Chunks),
        flat s = utf8Encode ("Content-Length: ".data ++ intToChars ((m : Int)))
          ++ crlfcrlf ++ pb →
        pb.length < m →
        read_response s = ReadOutcome.hang
          ∧ read_response s ≠ ReadOutcome.exc PyExc.connectionError) := by
  refine ⟨?_, ?_, ?_, ?_⟩
  · intro s hb hchars h1 h2 h3 h4
    have h := read_response_missing_cl hb hchars s h1 h2 h3 h4
    refine ⟨h, ?_⟩
    rw [h]
    simp
  · intro msg tl s h1 h2
    obtain ⟨s2, _, hrr⟩ := read_response_frame msg tl s h1
    rw [h2] at hrr
    refine ⟨hrr, ?_⟩
    rw [hrr]
    simp
  · intro s h1
    have h := read_response_no_terminator s h1
    refine ⟨h, ?_⟩
    rw [h]
    simp
  · intro m pb s h1 h2
    have h := read_response_truncated m pb s h1 h2
    refine ⟨h, ?_⟩
    rw [h]
    simp

/-- C3 counterexample: concrete runs of read_response contradicting the
specified taxonomy. A header block reading "Foo: 3" with no
Content-Length field yields an IndexError, not a ProtocolError; a framed
body that is not JSON yields a JSONDecodeError, not a ProtocolError; and
a stream that closes after delivering only "Content-Len" — before the
header terminator — makes read_response hang on recv instead of raising
a ConnectionError. -/
theorem read_response_taxonomy_counterexample :
    read_response [utf8Encode "Foo: 3\x0d\x0a\x0d\x0a".data]
        = ReadOutcome.exc PyExc.indexError
    ∧ ReadOutcome.exc PyExc.indexError ≠ ReadOutcome.exc PyExc.protocolError
    ∧ read_response [utf8Encode "Content-Length: 4\x0d\x0a\x0d\x0anope".data]
        = ReadOutcome.exc PyExc.jsonDecodeError
    ∧ ReadOutcome.exc PyExc.jsonDecodeError ≠ ReadOutcome.exc PyExc.protocolError
    ∧ read_response [utf8Encode "Content-Len".data] = ReadOutcome.hang
    ∧ ReadOutcome.hang ≠ ReadOutcome.exc PyExc.connectionError := by
  refine ⟨rfl, by simp, rfl, by simp, rfl, by simp⟩

end DapDemo
